import Mathlib

/-!
# Verification of the tool-organizer barcode resolver and tool matcher

Shallow embedding of the two algorithmic units of the repository:

* the barcode identity resolver of `src/lib/gemini.ts`
  (`normalizeBarcodeValue`, `normalizeBarcodeDigits`, `buildBarcodeVariants`,
  `collectItemBarcodeCandidates`, `hasStrongBarcodeMatch`,
  `lookupBarcodeProduct`, `lookupOpenFactsProduct`, and the lookup chain of
  `analyzeBarcode`), and
* the tool requirement matcher of `src/lib/workAssistant.ts`
  (`normalizeText`, `toTokens`, `keywordSynonyms`, `findBestInventoryMatch`,
  `normalizeToolMatches`).

JavaScript strings are modelled as Lean `String`; character classes and the
ASCII case maps are written out over `Char.toNat` codes.  JavaScript numbers
are modelled as `ℚ` (the scores in `workAssistant.ts` are finite sums of the
literals 0.7, 0.3 and 0.08 scaled by small integer ratios; we use exact
rational arithmetic).  Network calls are modelled as oracle functions from a
URL to the optional parsed response.  Arbitrary JSON values (needed where the
source handles untyped data) are modelled by the `JVal` type, and the
JavaScript runtime behaviours the claims depend on (property access on
nullish values throwing `TypeError`, truthiness, `||` defaulting, optional
chaining) are modelled explicitly.
-/

/-! ## Character helpers (ASCII models of the JS character classes) -/

/-- JS regex class `[0-9]` (`\d`), by character code. -/
def isDigitJs (c : Char) : Bool :=
  decide (48 ≤ c.toNat ∧ c.toNat ≤ 57)

/-- JS regex class `[0-9A-Za-z]` used by `normalizeBarcodeValue`. -/
def isJsAlnum (c : Char) : Bool :=
  decide ((48 ≤ c.toNat ∧ c.toNat ≤ 57) ∨ (65 ≤ c.toNat ∧ c.toNat ≤ 90) ∨
    (97 ≤ c.toNat ∧ c.toNat ≤ 122))

/-- ASCII part of the JS whitespace class `\s` (space, tab, LF, VT, FF, CR). -/
def isWsChar (c : Char) : Bool :=
  decide (c.toNat = 32 ∨ c.toNat = 9 ∨ c.toNat = 10 ∨ c.toNat = 11 ∨
    c.toNat = 12 ∨ c.toNat = 13)

/-- ASCII model of `String.prototype.toUpperCase` (`'a'..'z'` codes 97–122). -/
def toUpperJs (c : Char) : Char :=
  if 97 ≤ c.toNat ∧ c.toNat ≤ 122 then Char.ofNat (c.toNat - 32) else c

/-- ASCII model of `String.prototype.toLowerCase` (`'A'..'Z'` codes 65–90). -/
def toLowerJs (c : Char) : Char :=
  if 65 ≤ c.toNat ∧ c.toNat ≤ 90 then Char.ofNat (c.toNat + 32) else c

/-- `String.prototype.trim` on a character list: strip whitespace at both
ends. -/
def trimChars (l : List Char) : List Char :=
  ((l.dropWhile isWsChar).reverse.dropWhile isWsChar).reverse

/-- Tail worker for `collapseWs`; the flag records whether the previous kept
character came from a whitespace run. -/
def collapseWsAux : Bool → List Char → List Char
  | _, [] => []
  | prevWs, c :: rest =>
    if isWsChar c then
      if prevWs then collapseWsAux true rest
      else ' ' :: collapseWsAux true rest
    else c :: collapseWsAux false rest

/-- JS `replace(/\s+/g, ' ')`: collapse every whitespace run to one space. -/
def collapseWs (l : List Char) : List Char := collapseWsAux false l

/-- `leadEq needle hay` is true when `needle` is an initial segment of
`hay`. -/
def leadEq : List Char → List Char → Bool
  | [], _ => true
  | _ :: _, [] => false
  | a :: as, b :: bs => a = b && leadEq as bs

/-- Substring search on character lists. -/
def hasSubList (hay needle : List Char) : Bool :=
  match hay with
  | [] => leadEq needle []
  | c :: rest => leadEq needle (c :: rest) || hasSubList rest needle

/-- JS `hay.includes(needle)` (the empty needle is contained in every
string). -/
def hasSubStr (hay needle : String) : Bool :=
  hasSubList hay.data needle.data

/-- JS `.trim()` on a string. -/
def jsTrim (s : String) : String := String.mk (trimChars s.data)

/-! ## Barcode identity resolver: normalization (gemini.ts lines 49–77) -/

/-- `normalizeBarcodeValue` (gemini.ts line 49):
`value.replace(/[^0-9A-Za-z]/g, '').trim().toUpperCase()`.  The `trim` is
kept even though the preceding replace already removed all whitespace. -/
def normalizeBarcodeValue (value : String) : String :=
  String.mk ((trimChars (value.data.filter isJsAlnum)).map toUpperJs)

/-- `normalizeBarcodeDigits` (gemini.ts line 53): `value.replace(/\D/g, '')`. -/
def normalizeBarcodeDigits (value : String) : String :=
  String.mk (value.data.filter isDigitJs)

/-- `Set.add` on a list kept in insertion order. -/
def insertUniq (l : List String) (s : String) : List String :=
  if s ∈ l then l else l ++ [s]

/-- `Array.from(new Set(xs))`: deduplicate keeping first occurrences. -/
def dedupStrings (xs : List String) : List String :=
  xs.foldl insertUniq []

/-- `barcode.slice(1)` for the 13→12 digit variant. -/
def strTail (s : String) : String := String.mk s.data.tail

/-- `buildBarcodeVariants` (gemini.ts lines 57–77). -/
def buildBarcodeVariants (barcode : String) : List String :=
  let normalized := normalizeBarcodeValue barcode
  if normalized = "" then []
  else
    let variants := [normalized]
    let digits := normalizeBarcodeDigits normalized
    if digits = "" then variants
    else
      let variants := insertUniq variants digits
      let variants :=
        if digits.length = 12 then insertUniq variants ("0" ++ digits) else variants
      let variants :=
        if digits.length = 13 ∧ digits.data.head? = some '0' then
          insertUniq variants (strTail digits)
        else variants
      variants

/-! ## JSON values and JavaScript runtime helpers -/

/-- Untyped JSON/JS values, as handled by the source where records arrive from
`JSON.parse` (`Record<string, unknown>` in gemini.ts, the parsed AI result in
workAssistant.ts). -/
inductive JVal where
  | null
  | undefinedVal
  | bool (b : Bool)
  | num (q : ℚ)
  | str (s : String)
  | arr (xs : List JVal)
  | obj (fields : List (String × JVal))

/-- JS truthiness (NaN is not modelled; `num` carries an exact rational). -/
def jsTruthy : JVal → Bool
  | .null => false
  | .undefinedVal => false
  | .bool b => b
  | .num q => decide (q ≠ 0)
  | .str s => decide (s ≠ "")
  | .arr _ => true
  | .obj _ => true

/-- `v === null || v === undefined`. -/
def jsNullish : JVal → Bool
  | .null => true
  | .undefinedVal => true
  | _ => false

/-- Property read `v[key]` on a non-nullish value: a field of an object,
`undefined` otherwise (built-in properties of primitives other than the ones
the source reads are not modelled). -/
def objGet (v : JVal) (key : String) : JVal :=
  match v with
  | .obj fields =>
    match fields.find? (fun p => p.1 = key) with
    | some p => p.2
    | none => .undefinedVal
  | _ => .undefinedVal

/-- `String(x)` for the scalar identifier fields; exact for integers, which is
the only numeric shape barcode fields take (an approximation is used for
non-integral rationals). -/
def jsNumToString (q : ℚ) : String :=
  if q.den = 1 then toString q.num else toString q

/-- The fixed identifier key list `BARCODE_ITEM_KEYS` (gemini.ts line 47). -/
def barcodeItemKeys : List String := ["upc", "ean", "gtin", "barcode"]

/-- Normalize one raw identifier and add it to the candidate set
(gemini.ts lines 84–95, both the scalar and the array entry case). -/
def pushBarcodeCandidate (acc : List String) (s : String) : List String :=
  let normalized := normalizeBarcodeValue s
  if normalized = "" then acc else insertUniq acc normalized

/-- `collectItemBarcodeCandidates` (gemini.ts lines 79–100). -/
def collectItemBarcodeCandidates (item : JVal) : List String :=
  barcodeItemKeys.foldl
    (fun acc key =>
      let raw := objGet item key
      let acc :=
        match raw with
        | .str s => pushBarcodeCandidate acc s
        | .num q => pushBarcodeCandidate acc (jsNumToString q)
        | _ => acc
      match raw with
      | .arr entries =>
        entries.foldl
          (fun acc entry =>
            match entry with
            | .str s => pushBarcodeCandidate acc s
            | .num q => pushBarcodeCandidate acc (jsNumToString q)
            | _ => acc) acc
      | _ => acc) []

/-- `hasStrongBarcodeMatch` (gemini.ts lines 102–128): the candidate's
identifier variants must meet the query's variants, by exact string equality,
digit-only equality, or the 12↔13 leading-zero equivalence. -/
def hasStrongBarcodeMatch (item : JVal) (barcode : String) : Bool :=
  let expectedVariants := buildBarcodeVariants barcode
  if expectedVariants.isEmpty then false
  else
    let expectedSet := expectedVariants
    let expectedDigitSet :=
      (expectedVariants.map normalizeBarcodeDigits).filter (fun s => !(s = ""))
    (collectItemBarcodeCandidates item).any (fun candidate =>
      expectedSet.contains candidate ||
        (let candidateDigits := normalizeBarcodeDigits candidate
         !(candidateDigits = "") &&
           (expectedDigitSet.contains candidateDigits ||
            (candidateDigits.length = 13 &&
              candidateDigits.data.head? = some '0' &&
              expectedDigitSet.contains (strTail candidateDigits)) ||
            (candidateDigits.length = 12 &&
              expectedDigitSet.contains ("0" ++ candidateDigits)))))

/-! ## Barcode product lookups (gemini.ts lines 246–334)

The network is an oracle from a URL to the optional successfully-parsed JSON
body; `getJson` returning `null` on any failure is the oracle returning
`none`. -/

/-- Optional fields of a `BarcodeLookupResult` (gemini.ts lines 27–34). -/
structure BarcodeLookupResult where
  title : Option String := none
  description : Option String := none
  brand : Option String := none
  category : Option String := none
  imageUrl : Option String := none
  productUrl : Option String := none
deriving DecidableEq

/-- `/^\d+$/.test s`. -/
def isNumericStr (s : String) : Bool :=
  !(s = "") && s.data.all isDigitJs

/-- The UPCItemDB query URL (gemini.ts line 255); `encodeURIComponent` is the
identity on the digit-only codes that reach it. -/
def upcLookupUrl (code : String) : String :=
  "https://api.upcitemdb.com/prod/trial/lookup?upc=" ++ code

/-- `payload?.items` when it is an array, else `[]` (gemini.ts line 260). -/
def payloadItems (payload : JVal) : List JVal :=
  match objGet payload "items" with
  | .arr xs => xs
  | _ => []

/-- The predicate of `items.find` (gemini.ts lines 261–264): candidates that
are not truthy objects are skipped, the rest must pass the strong filter.
`typeof x === 'object'` holds for objects and arrays; `null` is excluded by
the truthiness test. -/
def upcCandidateOk (barcode : String) (candidate : JVal) : Bool :=
  jsTruthy candidate &&
    (match candidate with
     | .obj _ => true
     | .arr _ => true
     | _ => false) &&
    hasStrongBarcodeMatch candidate barcode

/-- Build the returned record from the matched item (gemini.ts lines 272–279). -/
def upcResultOfItem (item : JVal) : BarcodeLookupResult :=
  { title := match objGet item "title" with | .str s => some s | _ => none
    description := match objGet item "description" with | .str s => some s | _ => none
    brand := match objGet item "brand" with | .str s => some s | _ => none
    category := match objGet item "category" with | .str s => some s | _ => none
    imageUrl :=
      match objGet item "images" with
      | .arr (.str s :: _) => some s
      | _ => none
    productUrl :=
      match objGet item "offers" with
      | .arr (first :: _) =>
        (match objGet first "link" with | .str s => some s | _ => none)
      | _ => none }

/-- The `for (const code of queryVariants)` loop of `lookupBarcodeProduct`
(gemini.ts lines 253–280): first code whose payload holds a strongly-matching
item wins. -/
def lookupBarcodeLoop (fetch : String → Option JVal) (barcode : String) :
    List String → Option BarcodeLookupResult
  | [] => none
  | code :: rest =>
    match fetch (upcLookupUrl code) with
    | none => lookupBarcodeLoop fetch barcode rest
    | some payload =>
      match (payloadItems payload).find? (upcCandidateOk barcode) with
      | none => lookupBarcodeLoop fetch barcode rest
      | some item => some (upcResultOfItem item)

/-- `lookupBarcodeProduct` (gemini.ts lines 246–286). -/
def lookupBarcodeProduct (fetch : String → Option JVal) (barcode : String) :
    Option BarcodeLookupResult :=
  let barcodeVariants := buildBarcodeVariants barcode
  if barcodeVariants.isEmpty then none
  else
    lookupBarcodeLoop fetch barcode
      (dedupStrings (barcodeVariants.filter isNumericStr))

/-! ## Open *Facts lookup (gemini.ts lines 288–334)

The payload is typed in the source (`{ product?: OpenFactsProduct }` with
optional string fields), so this part is embedded at the TypeScript type. -/

/-- `OpenFactsProduct` (gemini.ts lines 36–45). -/
structure OpenFactsProduct where
  product_name : Option String := none
  generic_name : Option String := none
  brands : Option String := none
  categories : Option String := none
  image_front_url : Option String := none
  image_url : Option String := none
  product_url : Option String := none
  url : Option String := none
deriving DecidableEq

/-- One optional string field of a JSON record. -/
def optField (name : String) (v : Option String) : List (String × JVal) :=
  match v with
  | some s => [(name, .str s)]
  | none => []

/-- The JSON record an `OpenFactsProduct` came from: only the typed fields;
in particular none of the `BARCODE_ITEM_KEYS` identifier fields. -/
def openFactsToJVal (p : OpenFactsProduct) : JVal :=
  .obj
    (optField "product_name" p.product_name ++
     optField "generic_name" p.generic_name ++
     optField "brands" p.brands ++
     optField "categories" p.categories ++
     optField "image_front_url" p.image_front_url ++
     optField "image_url" p.image_url ++
     optField "product_url" p.product_url ++
     optField "url" p.url)

/-- JS `a || b` on optional strings (the empty string is falsy). -/
def jsOrElseStr (a b : Option String) : Option String :=
  match a with
  | some s => if s = "" then b else some s
  | none => b

/-- Falsiness of an optional string (`undefined` or `''`). -/
def optFalsy (o : Option String) : Bool :=
  match o with
  | none => true
  | some s => decide (s = "")

/-- `isHttpUrl` (gemini.ts lines 143–146): `/^https?:\/\//i` on the trimmed
value, false for `undefined` and the empty string. -/
def isHttpUrl (value : Option String) : Bool :=
  match value with
  | none => false
  | some s =>
    if s = "" then false
    else
      let t := (jsTrim s).data.map toLowerJs
      leadEq "http://".data t || leadEq "https://".data t

/-- `split(',')[0]`: everything before the first comma (always defined). -/
def splitCommaHead (s : String) : String :=
  String.mk (s.data.takeWhile (fun c => !(c = ',')))

/-- The body of the Open*Facts endpoint loop once a product object is present
(gemini.ts lines 310–326): extract display fields and accept the product iff
at least one of title/brand/description/category is non-empty.  No strong
barcode filter is applied here. -/
def openFactsResultOfProduct (product : OpenFactsProduct) : Option BarcodeLookupResult :=
  let title := jsTrim ((jsOrElseStr product.product_name product.generic_name).getD "")
  let description := product.generic_name.map jsTrim
  let brand := product.brands.map (fun s => jsTrim (splitCommaHead s))
  let category := product.categories.map (fun s => jsTrim (splitCommaHead s))
  let imageUrl := jsOrElseStr product.image_front_url product.image_url
  let productUrl := jsOrElseStr product.product_url product.url
  if title = "" ∧ optFalsy brand ∧ optFalsy description ∧ optFalsy category then none
  else
    some
      { title := if title = "" then none else some title
        description := if optFalsy description then none else description
        brand := if optFalsy brand then none else brand
        category := if optFalsy category then none else category
        imageUrl := if isHttpUrl imageUrl then imageUrl else none
        productUrl := if isHttpUrl productUrl then productUrl else none }

/-- The two mirror endpoints (gemini.ts lines 293–296). -/
def openFactsEndpoints : List String :=
  ["https://world.openbeautyfacts.org/api/v2/product",
   "https://world.openfoodfacts.org/api/v2/product"]

/-- The inner `for (const endpoint of endpoints)` loop (gemini.ts lines
300–327).  The oracle returns `none` for a failed request and
`some payload` otherwise, where the payload's optional `product` field is
`Option OpenFactsProduct`. -/
def openFactsTryEndpoints (fetch : String → Option (Option OpenFactsProduct))
    (code : String) : List String → Option BarcodeLookupResult
  | [] => none
  | endpoint :: rest =>
    match fetch (endpoint ++ "/" ++ code ++ ".json") with
    | none => openFactsTryEndpoints fetch code rest
    | some payload =>
      match payload with
      | none => openFactsTryEndpoints fetch code rest
      | some product =>
        match openFactsResultOfProduct product with
        | none => openFactsTryEndpoints fetch code rest
        | some r => some r

/-- The outer `for (const code of uniqueCodes)` loop (gemini.ts lines
299–328). -/
def openFactsTryCodes (fetch : String → Option (Option OpenFactsProduct)) :
    List String → Option BarcodeLookupResult
  | [] => none
  | code :: rest =>
    match openFactsTryEndpoints fetch code openFactsEndpoints with
    | some r => some r
    | none => openFactsTryCodes fetch rest

/-- `lookupOpenFactsProduct` (gemini.ts lines 288–334). -/
def lookupOpenFactsProduct (fetch : String → Option (Option OpenFactsProduct))
    (barcode : String) : Option BarcodeLookupResult :=
  let barcodeVariants := (buildBarcodeVariants barcode).filter isNumericStr
  if barcodeVariants.isEmpty then none
  else openFactsTryCodes fetch (dedupStrings barcodeVariants)

/-- The lookup chain of `analyzeBarcode` (gemini.ts line 493):
`(await lookupBarcodeProduct(barcode)) || (await lookupOpenFactsProduct(barcode))`. -/
def resolveBarcodeProduct (fetchUpc : String → Option JVal)
    (fetchFacts : String → Option (Option OpenFactsProduct))
    (barcode : String) : Option BarcodeLookupResult :=
  match lookupBarcodeProduct fetchUpc barcode with
  | some r => some r
  | none => lookupOpenFactsProduct fetchFacts barcode

/-! ## Support lemmas: digit strings and normalization -/

lemma isJsAlnum_of_isDigitJs {c : Char} (h : isDigitJs c = true) :
    isJsAlnum c = true := by
  simp only [isDigitJs, decide_eq_true_eq] at h
  simp only [isJsAlnum, decide_eq_true_eq]
  omega

lemma toUpperJs_of_isDigitJs {c : Char} (h : isDigitJs c = true) :
    toUpperJs c = c := by
  simp only [isDigitJs, decide_eq_true_eq] at h
  unfold toUpperJs
  rw [if_neg]
  omega

lemma isWsChar_of_isDigitJs {c : Char} (h : isDigitJs c = true) :
    isWsChar c = false := by
  simp only [isDigitJs, decide_eq_true_eq] at h
  simp only [isWsChar, decide_eq_false_iff_not]
  omega

lemma dropWhile_eq_self_of_none {p : Char → Bool} {l : List Char}
    (h : ∀ c ∈ l, p c = false) : l.dropWhile p = l := by
  cases l with
  | nil => rfl
  | cons c rest => simp [List.dropWhile_cons, h c (by simp)]

lemma trimChars_eq_self {l : List Char} (h : ∀ c ∈ l, isWsChar c = false) :
    trimChars l = l := by
  unfold trimChars
  rw [dropWhile_eq_self_of_none h,
    dropWhile_eq_self_of_none (fun c hc => h c (List.mem_reverse.mp hc)),
    List.reverse_reverse]

lemma normalizeBarcodeValue_of_digits {s : String}
    (h : ∀ c ∈ s.data, isDigitJs c = true) : normalizeBarcodeValue s = s := by
  unfold normalizeBarcodeValue
  rw [List.filter_eq_self.mpr (fun c hc => isJsAlnum_of_isDigitJs (h c hc)),
    trimChars_eq_self (fun c hc => isWsChar_of_isDigitJs (h c hc))]
  have : s.data.map toUpperJs = s.data := by
    conv_rhs => rw [← List.map_id s.data]
    exact List.map_congr_left (fun c hc => toUpperJs_of_isDigitJs (h c hc))
  rw [this]

lemma normalizeBarcodeDigits_of_digits {s : String}
    (h : ∀ c ∈ s.data, isDigitJs c = true) : normalizeBarcodeDigits s = s := by
  unfold normalizeBarcodeDigits
  rw [List.filter_eq_self.mpr h]

lemma string_ne_of_length_ne {s t : String} (h : s.length ≠ t.length) : s ≠ t := by
  intro hst; exact h (by rw [hst])

/-- Variant list of an all-digit 12-character string. -/
lemma buildBarcodeVariants_digits12 {d : String} (h12 : d.length = 12)
    (hd : ∀ c ∈ d.data, isDigitJs c = true) :
    buildBarcodeVariants d = [d, "0" ++ d] := by
  have hne : ¬ d = "" := by
    intro h; rw [h] at h12; simp [String.length] at h12
  have hlen : ("0" ++ d).length = 13 := by rw [String.length_append, h12]; decide
  have hd0 : ¬ ("0" ++ d) = d :=
    string_ne_of_length_ne (by rw [hlen, h12]; omega)
  unfold buildBarcodeVariants
  rw [normalizeBarcodeValue_of_digits hd, if_neg hne,
    normalizeBarcodeDigits_of_digits hd]
  simp only [if_neg hne]
  rw [show insertUniq [d] d = [d] by simp [insertUniq]]
  rw [if_pos h12]
  rw [show insertUniq [d] ("0" ++ d) = [d, "0" ++ d] by
    simp [insertUniq, hd0]]
  rw [if_neg (by rw [h12]; simp)]

/-- Variant list of `"0" ++ d` for an all-digit 12-character `d`. -/
lemma buildBarcodeVariants_zero_digits12 {d : String} (h12 : d.length = 12)
    (hd : ∀ c ∈ d.data, isDigitJs c = true) :
    buildBarcodeVariants ("0" ++ d) = ["0" ++ d, d] := by
  have hdata : ("0" ++ d).data = '0' :: d.data := by
    rw [String.data_append]; rfl
  have hd' : ∀ c ∈ ("0" ++ d).data, isDigitJs c = true := by
    rw [hdata]
    intro c hc
    rcases List.mem_cons.mp hc with h | h
    · subst h; rfl
    · exact hd c h
  have hlen : ("0" ++ d).length = 13 := by rw [String.length_append, h12]; decide
  have hne : ¬ ("0" ++ d) = "" := by
    intro h; rw [h] at hlen; simp [String.length] at hlen
  have hd0 : ¬ d = ("0" ++ d) :=
    string_ne_of_length_ne (by rw [hlen, h12]; omega)
  unfold buildBarcodeVariants
  rw [normalizeBarcodeValue_of_digits hd', if_neg hne,
    normalizeBarcodeDigits_of_digits hd']
  simp only [if_neg hne]
  rw [show insertUniq ["0" ++ d] ("0" ++ d) = ["0" ++ d] by simp [insertUniq]]
  have h12' : ¬ (("0" ++ d).length = 12) := by rw [hlen]; omega
  rw [if_neg h12']
  have hhead : ("0" ++ d).data.head? = some '0' := by rw [hdata]; rfl
  rw [if_pos (And.intro hlen hhead)]
  have htail : strTail ("0" ++ d) = d := by
    unfold strTail; rw [hdata]; rfl
  rw [htail]
  simp [insertUniq, hd0]

/-- **C6.** For every 12-digit numeric string `d`, the variant expansion of
`d` and the variant expansion of the 13-digit string `"0" ++ d` have a
non-empty intersection (`d` itself lies in both). -/
theorem variant_symmetry_c6 (d : String) (h12 : d.length = 12)
    (hd : ∀ c ∈ d.data, isDigitJs c = true) :
    ∃ x, x ∈ buildBarcodeVariants d ∧ x ∈ buildBarcodeVariants ("0" ++ d) := by
  refine ⟨d, ?_, ?_⟩
  · rw [buildBarcodeVariants_digits12 h12 hd]; simp
  · rw [buildBarcodeVariants_zero_digits12 h12 hd]; simp

theorem variant_symmetry_c6_witness :
    ∃ x, x ∈ buildBarcodeVariants "123456789012" ∧
      x ∈ buildBarcodeVariants ("0" ++ "123456789012") :=
  variant_symmetry_c6 "123456789012" (by decide) (by decide)

/-- **C7.** The strong-match filter rejects a candidate whose only embedded
identifier (`upc`) is `999999999999` when the query barcode is
`012345678905`. -/
theorem strong_match_rejects_unrelated_c7 :
    hasStrongBarcodeMatch (.obj [("upc", .str "999999999999")]) "012345678905"
      = false := by decide

/-! ## C1: the lookup chain and the strong-match filter -/

/-- Everything the UPCItemDB loop returns was fetched from the oracle and
passed the strong-match filter. -/
lemma lookupBarcodeLoop_sound {fetch : String → Option JVal} {barcode : String}
    {r : BarcodeLookupResult} :
    ∀ {codes : List String}, lookupBarcodeLoop fetch barcode codes = some r →
      ∃ code payload item,
        fetch (upcLookupUrl code) = some payload ∧
        item ∈ payloadItems payload ∧
        hasStrongBarcodeMatch item barcode = true ∧
        r = upcResultOfItem item := by
  intro codes
  induction codes with
  | nil => intro h; simp [lookupBarcodeLoop] at h
  | cons code rest ih =>
    intro h
    unfold lookupBarcodeLoop at h
    cases hf : fetch (upcLookupUrl code) with
    | none => simp only [hf] at h; exact ih h
    | some payload =>
      simp only [hf] at h
      cases hfind : (payloadItems payload).find? (upcCandidateOk barcode) with
      | none => simp only [hfind] at h; exact ih h
      | some item =>
        simp only [hfind, Option.some.injEq] at h
        have hok := List.find?_some hfind
        have hmem := List.mem_of_find?_eq_some hfind
        simp only [upcCandidateOk, Bool.and_eq_true] at hok
        exact ⟨code, payload, item, hf, hmem, hok.2, h.symm⟩

/-- No Open*Facts product record carries any of the `BARCODE_ITEM_KEYS`
identifier fields, so the strong-match filter never accepts one. -/
lemma mem_optField {name : String} {v : Option String} {q : String × JVal}
    (h : q ∈ optField name v) : q.1 = name := by
  cases v with
  | none => simp [optField] at h
  | some s =>
    simp only [optField, List.mem_singleton] at h
    rw [h]

lemma objGet_openFacts_barcodeKeys (p : OpenFactsProduct) {key : String}
    (hk : key ∈ barcodeItemKeys) : objGet (openFactsToJVal p) key = .undefinedVal := by
  simp only [objGet, openFactsToJVal]
  rw [List.find?_eq_none.mpr ?hnone]
  case hnone =>
    intro q hq
    have h8 : q.1 ∈ (["product_name", "generic_name", "brands", "categories",
        "image_front_url", "image_url", "product_url", "url"] : List String) := by
      simp only [List.mem_append] at hq
      rcases hq with ((((((h | h) | h) | h) | h) | h) | h) | h <;>
        · have := mem_optField h
          simp [this]
    simp only [decide_eq_true_eq]
    intro hqk
    rw [hqk] at h8
    simp only [barcodeItemKeys, List.mem_cons, List.not_mem_nil, or_false] at hk
    rcases hk with hk | hk | hk | hk <;> rw [hk] at h8 <;> exact absurd h8 (by decide)

lemma collectItemBarcodeCandidates_openFacts (p : OpenFactsProduct) :
    collectItemBarcodeCandidates (openFactsToJVal p) = [] := by
  have h : ∀ key ∈ barcodeItemKeys, objGet (openFactsToJVal p) key = .undefinedVal :=
    fun key hk => objGet_openFacts_barcodeKeys p hk
  simp only [collectItemBarcodeCandidates, barcodeItemKeys, List.foldl_cons,
    List.foldl_nil]
  rw [h "upc" (by simp [barcodeItemKeys]), h "ean" (by simp [barcodeItemKeys]),
    h "gtin" (by simp [barcodeItemKeys]), h "barcode" (by simp [barcodeItemKeys])]

lemma hasStrongBarcodeMatch_openFacts (p : OpenFactsProduct) (barcode : String) :
    hasStrongBarcodeMatch (openFactsToJVal p) barcode = false := by
  unfold hasStrongBarcodeMatch
  rw [collectItemBarcodeCandidates_openFacts]
  by_cases h : (buildBarcodeVariants barcode).isEmpty <;> simp [h]

/-- Concrete product used to exhibit the Open*Facts acceptance behaviour. -/
def soapProduct : OpenFactsProduct := { product_name := some "Soap" }

/-- Oracle for the primary source: every request fails. -/
def c1FetchUpcNone : String → Option JVal := fun _ => none

/-- Oracle for the Open*Facts mirrors: the first endpoint knows the product. -/
def c1FetchFacts : String → Option (Option OpenFactsProduct) := fun url =>
  if url = "https://world.openbeautyfacts.org/api/v2/product/012345678905.json"
  then some (some soapProduct) else none

/-- **C1, counterexample.** The lookup chain returns a non-null result coming
from the Open*Facts source even though that candidate record does not pass the
strong-match filter against the queried barcode (its identifier variant set is
empty), refuting the claim that every candidate accepted by either source
passes the filter. -/
theorem barcode_chain_c1_counterexample :
    resolveBarcodeProduct c1FetchUpcNone c1FetchFacts "012345678905"
        = some { title := some "Soap" } ∧
      hasStrongBarcodeMatch (openFactsToJVal soapProduct) "012345678905"
        = false := by
  constructor
  · decide
  · exact hasStrongBarcodeMatch_openFacts soapProduct "012345678905"

/-- **C1, amended.** Every non-null result of the *first* source
(`lookupBarcodeProduct`) is built from a fetched candidate that passes the
strong-match filter against the queried barcode, and the chain stops at that
first accepted result (the second source is then never consulted).  The
second source (`lookupOpenFactsProduct`) applies no strong-match filter: its
candidate records carry no identifier fields, so the filter would reject every
one of them. -/
theorem barcode_chain_c1_amended :
    (∀ (fetch : String → Option JVal) (barcode : String)
        (r : BarcodeLookupResult),
      lookupBarcodeProduct fetch barcode = some r →
        ∃ code payload item,
          fetch (upcLookupUrl code) = some payload ∧
          item ∈ payloadItems payload ∧
          hasStrongBarcodeMatch item barcode = true ∧
          r = upcResultOfItem item) ∧
    (∀ (fetchUpc : String → Option JVal)
        (fetchFacts fetchFacts' : String → Option (Option OpenFactsProduct))
        (barcode : String) (r : BarcodeLookupResult),
      lookupBarcodeProduct fetchUpc barcode = some r →
        resolveBarcodeProduct fetchUpc fetchFacts barcode = some r ∧
        resolveBarcodeProduct fetchUpc fetchFacts barcode =
          resolveBarcodeProduct fetchUpc fetchFacts' barcode) ∧
    (∀ (p : OpenFactsProduct) (barcode : String),
      hasStrongBarcodeMatch (openFactsToJVal p) barcode = false) := by
  refine ⟨?_, ?_, hasStrongBarcodeMatch_openFacts⟩
  · intro fetch barcode r h
    unfold lookupBarcodeProduct at h
    by_cases hv : (buildBarcodeVariants barcode).isEmpty
    · rw [if_pos hv] at h; exact absurd h (by simp)
    · rw [if_neg hv] at h
      exact lookupBarcodeLoop_sound h
  · intro fetchUpc fetchFacts fetchFacts' barcode r h
    unfold resolveBarcodeProduct
    rw [h]
    exact ⟨rfl, rfl⟩

/-- Oracle for the primary source used by the C1 witness: the queried code
returns one strongly-matching item. -/
def c1FetchUpcHit : String → Option JVal := fun url =>
  if url = upcLookupUrl "012345678905" then
    some (.obj [("items",
      .arr [.obj [("upc", .str "012345678905"), ("title", .str "Widget")]])])
  else none

theorem barcode_chain_c1_witness :
    ∃ code payload item,
      c1FetchUpcHit (upcLookupUrl code) = some payload ∧
      item ∈ payloadItems payload ∧
      hasStrongBarcodeMatch item "012345678905" = true ∧
      upcResultOfItem
          (.obj [("upc", .str "012345678905"), ("title", .str "Widget")])
        = upcResultOfItem item :=
  barcode_chain_c1_amended.1 c1FetchUpcHit "012345678905"
    (upcResultOfItem (.obj [("upc", .str "012345678905"), ("title", .str "Widget")]))
    (by decide)

/-! ## Tool requirement matcher (workAssistant.ts)

Data model (workAssistant.ts lines 9–56): the inventory snapshot, the parsed
AI tool-match entries, and the normalized `ToolMatch` output. -/

/-- `InventoryItem` (workAssistant.ts lines 35–42). -/
structure InventoryItem where
  id : String
  name : String
  description : String
  category : Option String
  tags : List String
  location : String
deriving DecidableEq

/-- The three literal values of `matchStatus`. -/
inductive MatchStatus where
  | owned
  | alternative
  | missing
deriving DecidableEq

/-- The `ownedTool` slot of a `ToolMatch` (workAssistant.ts lines 15–19). -/
structure OwnedRef where
  id : String
  name : String
  location : String
deriving DecidableEq

/-- The `alternativeTool` slot of a `ToolMatch` (workAssistant.ts lines
20–25). -/
structure AltRef where
  id : String
  name : String
  reason : String
  location : String
deriving DecidableEq

/-- `ToolMatch` (workAssistant.ts lines 9–26). -/
structure ToolMatch where
  requiredToolName : String
  description : String
  category : String
  required : Bool
  matchStatus : MatchStatus
  ownedTool : Option OwnedRef
  alternativeTool : Option AltRef
deriving DecidableEq

/-- `ownedTool` entry of a parsed AI result (workAssistant.ts line 51). -/
structure RawToolRef where
  id : Option String := none
  name : Option String := none
  location : Option String := none
deriving DecidableEq

/-- `alternativeTool` entry of a parsed AI result (workAssistant.ts line 52). -/
structure RawAltRef where
  id : Option String := none
  name : Option String := none
  reason : Option String := none
  location : Option String := none
deriving DecidableEq

/-- One entry of `ParsedAiResult['toolMatches']` (workAssistant.ts lines
44–53); every field optional, `null` and `undefined` both map to `none`. -/
structure RawToolMatch where
  requiredToolName : Option String := none
  description : Option String := none
  category : Option String := none
  required : Option Bool := none
  matchStatus : Option MatchStatus := none
  ownedTool : Option RawToolRef := none
  alternativeTool : Option RawAltRef := none
deriving DecidableEq

/-- `normalizeText` (workAssistant.ts lines 58–63): lowercase, replace every
character outside `[a-z0-9\s]` by a space, collapse whitespace runs, trim. -/
def normalizeText (value : String) : String :=
  let lowered := value.data.map toLowerJs
  let replaced := lowered.map (fun c =>
    if decide (97 ≤ c.toNat ∧ c.toNat ≤ 122) || isDigitJs c || isWsChar c
    then c else ' ')
  String.mk (trimChars (collapseWs replaced))

/-- JS `String.prototype.split(' ')` on a character list; every occurrence of
the separator produces a boundary, and the result is never empty. -/
def splitOnSpaceAux : List Char → List Char → List (List Char)
  | [], cur => [cur.reverse]
  | c :: rest, cur =>
    if c = ' ' then cur.reverse :: splitOnSpaceAux rest []
    else splitOnSpaceAux rest (c :: cur)

/-- `toTokens` (workAssistant.ts line 65):
`normalizeText(value).split(' ').filter(Boolean)`. -/
def toTokens (value : String) : List String :=
  ((splitOnSpaceAux (normalizeText value).data []).map String.mk).filter
    (fun t => !(t = ""))

/-- `keywordSynonyms` (workAssistant.ts lines 67–76), as a total function with
default `[]` for keys outside the table. -/
def keywordSynonyms (token : String) : List String :=
  if token = "drill" then ["driver", "drill driver", "power drill", "cordless drill"]
  else if token = "screwdriver" then ["driver", "philips", "flathead", "screw driver"]
  else if token = "wrench" then ["spanner", "socket wrench", "adjustable wrench"]
  else if token = "hammer" then ["mallet", "claw hammer"]
  else if token = "level" then ["spirit level", "laser level"]
  else if token = "saw" then ["handsaw", "circular saw", "jigsaw"]
  else if token = "pliers" then ["needle nose", "slip joint", "locking pliers"]
  else if token = "tape" then ["measuring tape", "tape measure"]
  else []

/-- The candidate's combined corpus text (workAssistant.ts line 85):
`[name, description, category || '', ...tags].join(' ')`. -/
def corpusTextOf (candidate : InventoryItem) : String :=
  String.intercalate " "
    ([candidate.name, candidate.description, candidate.category.getD ""] ++
      candidate.tags)

/-- The substring condition of the 0.7 bonus (workAssistant.ts line 91):
`corpus.includes(required) || required.includes(normalizeText(candidate.name))`. -/
def substringBonusApplies (requiredToolName : String) (candidate : InventoryItem) : Bool :=
  let required := normalizeText requiredToolName
  let corpus := normalizeText (corpusTextOf candidate)
  hasSubStr corpus required || hasSubStr required (normalizeText candidate.name)

/-- The token-overlap component (workAssistant.ts lines 95–98):
`(overlap / requiredTokens.length) * 0.3` when there are tokens. -/
def tokenOverlapScore (requiredToolName : String) (candidate : InventoryItem) : ℚ :=
  let requiredTokens := toTokens requiredToolName
  let corpusTokens := toTokens (corpusTextOf candidate)
  let overlap := (requiredTokens.filter (fun t => corpusTokens.contains t)).length
  if 0 < requiredTokens.length then
    ((overlap : ℚ) / (requiredTokens.length : ℚ)) * (3 / 10)
  else 0

/-- The synonym component (workAssistant.ts lines 100–105): a flat 0.08 for
each requirement token (duplicates counted) one of whose synonym phrases
occurs in the corpus. -/
def synonymScore (requiredToolName : String) (candidate : InventoryItem) : ℚ :=
  let requiredTokens := toTokens requiredToolName
  let corpus := normalizeText (corpusTextOf candidate)
  ((requiredTokens.countP (fun token =>
      (keywordSynonyms token).any (fun s => hasSubStr corpus (normalizeText s)))) : ℚ)
    * (8 / 100)

/-- The per-candidate score of `findBestInventoryMatch` (workAssistant.ts
lines 89–105). -/
def scoreItem (requiredToolName : String) (candidate : InventoryItem) : ℚ :=
  (if substringBonusApplies requiredToolName candidate then 7 / 10 else 0) +
    tokenOverlapScore requiredToolName candidate +
    synonymScore requiredToolName candidate

/-- `findBestInventoryMatch` (workAssistant.ts lines 78–113): strict-best
scan, ties keep the earlier candidate. -/
def findBestInventoryMatch (requiredToolName : String)
    (inventory : List InventoryItem) : Option (InventoryItem × ℚ) :=
  inventory.foldl
    (fun best candidate =>
      let score := scoreItem requiredToolName candidate
      match best with
      | none => some (candidate, score)
      | some (bestItem, bestScore) =>
        if bestScore < score then some (candidate, score)
        else some (bestItem, bestScore)) none

/-- `new Map(inventory.map(item => [item.id, item])).get(i)` (workAssistant.ts
line 128): `Map.set` overwrites on duplicate keys, so the last inventory item
with a given id wins. -/
def inventoryById (inventory : List InventoryItem) (i : String) :
    Option InventoryItem :=
  inventory.reverse.find? (fun item => item.id = i)

/-- JS `(o || '').trim()` on an optional string. -/
def jsOrEmptyTrim (o : Option String) : String := jsTrim (o.getD "")

/-- The trimmed `requiredToolName` of a raw entry (workAssistant.ts line 131). -/
def nameOf (raw : RawToolMatch) : String := jsOrEmptyTrim raw.requiredToolName

/-- `raw.ownedTool?.id ? inventoryById.get(raw.ownedTool.id) : null`
(workAssistant.ts line 136). -/
def aiOwnedOf (inventory : List InventoryItem) (raw : RawToolMatch) :
    Option InventoryItem :=
  match raw.ownedTool with
  | some ot =>
    match ot.id with
    | some i => if i = "" then none else inventoryById inventory i
    | none => none
  | none => none

/-- Same for `raw.alternativeTool?.id` (workAssistant.ts line 137). -/
def aiAlternativeOf (inventory : List InventoryItem) (raw : RawToolMatch) :
    Option InventoryItem :=
  match raw.alternativeTool with
  | some alt =>
    match alt.id with
    | some i => if i = "" then none else inventoryById inventory i
    | none => none
  | none => none

/-- `raw.alternativeTool?.reason || 'Can substitute for this task.'`
(workAssistant.ts line 158). -/
def altReasonOf (raw : RawToolMatch) : String :=
  match raw.alternativeTool with
  | some alt =>
    match alt.reason with
    | some r => if r = "" then "Can substitute for this task." else r
    | none => "Can substitute for this task."
  | none => "Can substitute for this task."

/-- The classification chain of `normalizeToolMatches` (workAssistant.ts lines
140–189), shared by the typed and the untyped embedding.  `statusIsOwned` is
`(raw.matchStatus || 'missing') === 'owned'`. -/
def classifyMatch (requiredToolName description category : String)
    (required : Bool) (aiOwned aiAlternative : Option InventoryItem)
    (altReason : String) (statusIsOwned : Bool)
    (bestMatch : Option (InventoryItem × ℚ)) : ToolMatch :=
  let confidentOwned :=
    match bestMatch with
    | some (_, s) => decide ((62 : ℚ) / 100 ≤ s)
    | none => false
  let confidentAlternative :=
    match bestMatch with
    | some (_, s) => decide ((42 : ℚ) / 100 ≤ s)
    | none => false
  let outName := if requiredToolName = "" then "Unspecified tool" else requiredToolName
  match aiOwned with
  | some item =>
    { requiredToolName := outName, description, category, required,
      matchStatus := .owned,
      ownedTool := some ⟨item.id, item.name, item.location⟩,
      alternativeTool := none }
  | none =>
    if statusIsOwned && confidentOwned then
      match bestMatch with
      | some (item, _) =>
        { requiredToolName := outName, description, category, required,
          matchStatus := .owned,
          ownedTool := some ⟨item.id, item.name, item.location⟩,
          alternativeTool := none }
      | none =>
        -- not reachable: `confidentOwned` forces `bestMatch` to be `some`
        { requiredToolName := outName, description, category, required,
          matchStatus := .missing, ownedTool := none, alternativeTool := none }
    else
      match aiAlternative with
      | some item =>
        { requiredToolName := outName, description, category, required,
          matchStatus := .alternative, ownedTool := none,
          alternativeTool := some ⟨item.id, item.name, altReason, item.location⟩ }
      | none =>
        if confidentAlternative then
          match bestMatch with
          | some (item, _) =>
            if confidentOwned then
              { requiredToolName := outName, description, category, required,
                matchStatus := .owned,
                ownedTool := some ⟨item.id, item.name, item.location⟩,
                alternativeTool := none }
            else
              { requiredToolName := outName, description, category, required,
                matchStatus := .alternative, ownedTool := none,
                alternativeTool := some ⟨item.id, item.name,
                  "Closest available match in your inventory.", item.location⟩ }
          | none =>
            -- not reachable: `confidentAlternative` forces `bestMatch = some`
            { requiredToolName := outName, description, category, required,
              matchStatus := .missing, ownedTool := none, alternativeTool := none }
        else
          { requiredToolName := outName, description, category, required,
            matchStatus := .missing, ownedTool := none, alternativeTool := none }

/-- The per-entry mapping of `normalizeToolMatches` (workAssistant.ts lines
130–190) over a typed (already-parsed) entry. -/
def normalizeOne (inventory : List InventoryItem) (raw : RawToolMatch) :
    ToolMatch :=
  let requiredToolName := nameOf raw
  let description0 := jsOrEmptyTrim raw.description
  let description := if description0 = "" then "Useful for this task." else description0
  let category0 := jsOrEmptyTrim raw.category
  let category := if category0 = "" then "General" else category0
  let required := !(raw.required = some false)
  let aiOwned := aiOwnedOf inventory raw
  let aiAlternative := aiAlternativeOf inventory raw
  let bestMatch :=
    if requiredToolName = "" then none
    else findBestInventoryMatch requiredToolName inventory
  classifyMatch requiredToolName description category required aiOwned
    aiAlternative (altReasonOf raw) (raw.matchStatus = some .owned) bestMatch

/-- The dedup key (workAssistant.ts line 194). -/
def nkey (m : ToolMatch) : String := normalizeText m.requiredToolName

/-- First value stored under a key in the insertion-ordered map. -/
def assocFind : List (String × ToolMatch) → String → Option ToolMatch
  | [], _ => none
  | p :: rest, k => if p.1 = k then some p.2 else assocFind rest k

/-- `Map.set` on an existing key: replace the value in place. -/
def assocReplace : List (String × ToolMatch) → String → ToolMatch →
    List (String × ToolMatch)
  | [], _, _ => []
  | p :: rest, k, m => if p.1 = k then (k, m) :: rest else p :: assocReplace rest k m

/-- One iteration of the dedup loop (workAssistant.ts lines 193–199): skip
empty keys; insert a fresh key; replace only when the stored value is
`missing` and the new one is not. -/
def dedupStep (acc : List (String × ToolMatch)) (m : ToolMatch) :
    List (String × ToolMatch) :=
  let k := nkey m
  if k = "" then acc
  else
    match assocFind acc k with
    | none => acc ++ [(k, m)]
    | some v =>
      if v.matchStatus = .missing ∧ ¬ m.matchStatus = .missing then
        assocReplace acc k m
      else acc

/-- The dedup stage (workAssistant.ts lines 192–201):
`Array.from(dedup.values())` in key-insertion order. -/
def dedupMatches (ms : List ToolMatch) : List ToolMatch :=
  (ms.foldl dedupStep []).map Prod.snd

/-- `normalizeToolMatches` (workAssistant.ts lines 125–202) on typed input. -/
def normalizeToolMatches (rawMatches : List RawToolMatch)
    (inventory : List InventoryItem) : List ToolMatch :=
  if rawMatches.length = 0 then []
  else dedupMatches (rawMatches.map (normalizeOne inventory))

/-! ## C8 and C10: the substring bonus -/

lemma tokenOverlapScore_nonneg (requiredToolName : String)
    (candidate : InventoryItem) : 0 ≤ tokenOverlapScore requiredToolName candidate := by
  unfold tokenOverlapScore
  simp only []
  split
  · positivity
  · exact le_refl 0

lemma synonymScore_nonneg (requiredToolName : String)
    (candidate : InventoryItem) : 0 ≤ synonymScore requiredToolName candidate := by
  unfold synonymScore
  positivity

/-- The inventory item of the spec's substring-bonus example. -/
def dewaltItem : InventoryItem :=
  { id := "item-1", name := "DeWalt Cordless Drill Driver", description := "",
    category := none, tags := [], location := "Garage" }

/-- **C8.** The 0.7 substring bonus is awarded exactly when the normalized
corpus contains the normalized requirement name, or the normalized requirement
name contains the normalized candidate name: with the bonus the score is at
least 0.7, without it the score is exactly the token-overlap part plus the
synonym part; and the requirement `"drill"` against the DeWalt item (whose
corpus normalizes to `"dewalt cordless drill driver"`) scores at least 0.7. -/
theorem substring_bonus_c8 :
    (∀ (requiredToolName : String) (candidate : InventoryItem),
        substringBonusApplies requiredToolName candidate = true →
          7 / 10 ≤ scoreItem requiredToolName candidate) ∧
    (∀ (requiredToolName : String) (candidate : InventoryItem),
        substringBonusApplies requiredToolName candidate = false →
          scoreItem requiredToolName candidate =
            tokenOverlapScore requiredToolName candidate +
              synonymScore requiredToolName candidate) ∧
    (normalizeText (corpusTextOf dewaltItem) = "dewalt cordless drill driver" ∧
      7 / 10 ≤ scoreItem "drill" dewaltItem) := by
  refine ⟨?_, ?_, by decide, ?_⟩

  · intro requiredToolName candidate h
    unfold scoreItem
    rw [if_pos h]
    have h1 := tokenOverlapScore_nonneg requiredToolName candidate
    have h2 := synonymScore_nonneg requiredToolName candidate
    linarith
  · intro requiredToolName candidate h
    unfold scoreItem
    rw [if_neg (by rw [h]; exact Bool.false_ne_true), zero_add]
  · with_unfolding_all decide

theorem substring_bonus_c8_witness :
    7 / 10 ≤ scoreItem "drill" dewaltItem :=
  substring_bonus_c8.1 "drill" dewaltItem (by decide)

/-! ## C10: items whose name normalizes to the empty string -/

lemma toLowerJs_of_not_alnum {c : Char} (h : isJsAlnum c = false) :
    toLowerJs c = c := by
  simp only [isJsAlnum, decide_eq_false_iff_not] at h
  unfold toLowerJs
  rw [if_neg]
  omega

lemma isJsAlnum_toLowerJs {c : Char} (h : isJsAlnum c = false) :
    isJsAlnum (toLowerJs c) = false := by
  rw [toLowerJs_of_not_alnum h]; exact h

lemma collapseWsAux_true_all_ws {l : List Char}
    (h : ∀ c ∈ l, isWsChar c = true) : collapseWsAux true l = [] := by
  induction l with
  | nil => rfl
  | cons c rest ih =>
    unfold collapseWsAux
    rw [if_pos (h c (by simp)), if_pos rfl]
    exact ih (fun c hc => h c (by simp [hc]))

lemma trimChars_collapseWs_all_ws {l : List Char}
    (h : ∀ c ∈ l, isWsChar c = true) : trimChars (collapseWs l) = [] := by
  cases l with
  | nil => rfl
  | cons c rest =>
    unfold collapseWs collapseWsAux
    rw [if_pos (h c (by simp)),
      collapseWsAux_true_all_ws (fun c hc => h c (by simp [hc]))]
    rfl

/-- A name without a single `[0-9A-Za-z]` character normalizes to `""`. -/
lemma normalizeText_of_no_alnum {s : String}
    (h : ∀ c ∈ s.data, isJsAlnum c = false) : normalizeText s = "" := by
  unfold normalizeText
  simp only []
  have hws : ∀ c ∈ (s.data.map toLowerJs).map (fun c =>
      if decide (97 ≤ c.toNat ∧ c.toNat ≤ 122) || isDigitJs c || isWsChar c
      then c else ' '), isWsChar c = true := by
    intro c hc
    simp only [List.mem_map] at hc
    obtain ⟨b, ⟨a, ha, hab⟩, hbc⟩ := hc
    have hbna : isJsAlnum b = false := by
      rw [← hab]; exact isJsAlnum_toLowerJs (h a ha)
    have hbna' := hbna
    simp only [isJsAlnum, decide_eq_false_iff_not] at hbna'
    by_cases hwb : isWsChar b = true
    · rw [← hbc, if_pos (by rw [hwb]; simp)]
      exact hwb
    · rw [← hbc, if_neg]
      · rfl
      · simp only [Bool.or_eq_true, decide_eq_true_eq, not_or]
        refine ⟨⟨?_, ?_⟩, ?_⟩
        · omega
        · simp only [isDigitJs, decide_eq_true_eq]; omega
        · simpa using hwb
  rw [trimChars_collapseWs_all_ws hws]

lemma hasSubList_nil_needle (hay : List Char) : hasSubList hay [] = true := by
  cases hay <;> simp [hasSubList, leadEq]

/-- **C10.** An inventory item whose name has no alphanumeric character (so
its normalized name is `""`) receives the 0.7 substring bonus against every
requirement with a non-empty name, hence scores at least 0.7, which clears
the 0.62 owned threshold. -/
theorem empty_normalized_name_c10 (item : InventoryItem)
    (requiredToolName : String)
    (hname : ∀ c ∈ item.name.data, isJsAlnum c = false)
    (_hreq : ¬ requiredToolName = "") :
    substringBonusApplies requiredToolName item = true ∧
    7 / 10 ≤ scoreItem requiredToolName item ∧
    62 / 100 ≤ scoreItem requiredToolName item := by
  have hsub : substringBonusApplies requiredToolName item = true := by
    unfold substringBonusApplies
    simp only []
    rw [normalizeText_of_no_alnum hname]
    unfold hasSubStr
    rw [show ("" : String).data = [] from rfl, hasSubList_nil_needle]
    simp
  refine ⟨hsub, ?_, ?_⟩
  · unfold scoreItem
    rw [if_pos hsub]
    have h1 := tokenOverlapScore_nonneg requiredToolName item
    have h2 := synonymScore_nonneg requiredToolName item
    linarith
  · unfold scoreItem
    rw [if_pos hsub]
    have h1 := tokenOverlapScore_nonneg requiredToolName item
    have h2 := synonymScore_nonneg requiredToolName item
    have : (62 : ℚ) / 100 ≤ 7 / 10 := by norm_num
    linarith

theorem empty_normalized_name_c10_witness :
    substringBonusApplies "hammer"
        { id := "b1", name := "!!!", description := "", category := none,
          tags := [], location := "x" } = true ∧
    7 / 10 ≤ scoreItem "hammer"
        { id := "b1", name := "!!!", description := "", category := none,
          tags := [], location := "x" } ∧
    62 / 100 ≤ scoreItem "hammer"
        { id := "b1", name := "!!!", description := "", category := none,
          tags := [], location := "x" } :=
  empty_normalized_name_c10 _ _ (by decide) (by decide)

/-! ## Properties of `findBestInventoryMatch` and `inventoryById` -/

lemma findBestInventoryMatch_aux_mem {requiredToolName : String} :
    ∀ {inventory : List InventoryItem} {acc : Option (InventoryItem × ℚ)}
      {p : InventoryItem × ℚ},
      inventory.foldl
        (fun best candidate =>
          let score := scoreItem requiredToolName candidate
          match best with
          | none => some (candidate, score)
          | some (bestItem, bestScore) =>
            if bestScore < score then some (candidate, score)
            else some (bestItem, bestScore)) acc = some p →
      acc = some p ∨ p.1 ∈ inventory := by
  intro inventory
  induction inventory with
  | nil => intro acc p h; exact Or.inl h
  | cons c rest ih =>
    intro acc p h
    rw [List.foldl_cons] at h
    rcases ih h with h' | h'
    · simp only [] at h'
      cases acc with
      | none =>
        simp only [Option.some.injEq] at h'
        right; rw [← h']; simp
      | some q =>
        obtain ⟨qi, qs⟩ := q
        simp only [] at h'
        by_cases hlt : qs < scoreItem requiredToolName c
        · rw [if_pos hlt] at h'
          right
          have : p.1 = c := by rw [← Option.some.injEq _ _ |>.mp h']
          rw [this]; simp
        · rw [if_neg hlt] at h'
          left; exact h'
    · right; simp [h']

/-- The best match, when present, is an inventory member. -/
lemma findBestInventoryMatch_mem {requiredToolName : String}
    {inventory : List InventoryItem} {p : InventoryItem × ℚ}
    (h : findBestInventoryMatch requiredToolName inventory = some p) :
    p.1 ∈ inventory := by
  unfold findBestInventoryMatch at h
  rcases findBestInventoryMatch_aux_mem h with h' | h'
  · exact absurd h' (by simp)
  · exact h'

lemma findBestInventoryMatch_aux_isSome {requiredToolName : String} :
    ∀ {inventory : List InventoryItem} {q : InventoryItem × ℚ},
      (inventory.foldl
        (fun best candidate =>
          let score := scoreItem requiredToolName candidate
          match best with
          | none => some (candidate, score)
          | some (bestItem, bestScore) =>
            if bestScore < score then some (candidate, score)
            else some (bestItem, bestScore)) (some q)).isSome = true := by
  intro inventory
  induction inventory with
  | nil => intro q; rfl
  | cons c rest ih =>
    intro q
    rw [List.foldl_cons]
    obtain ⟨qi, qs⟩ := q
    simp only []
    by_cases hlt : qs < scoreItem requiredToolName c
    · rw [if_pos hlt]; exact ih
    · rw [if_neg hlt]; exact ih

/-- A non-empty inventory always yields a best match. -/
lemma findBestInventoryMatch_isSome {requiredToolName : String}
    {inventory : List InventoryItem} (h : inventory ≠ []) :
    (findBestInventoryMatch requiredToolName inventory).isSome = true := by
  unfold findBestInventoryMatch
  cases inventory with
  | nil => exact absurd rfl h
  | cons c rest =>
    rw [List.foldl_cons]
    exact findBestInventoryMatch_aux_isSome

/-- `inventoryById` finds an inventory member carrying the looked-up id. -/
lemma inventoryById_mem {inventory : List InventoryItem} {i : String}
    {item : InventoryItem} (h : inventoryById inventory i = some item) :
    item ∈ inventory ∧ item.id = i := by
  unfold inventoryById at h
  refine ⟨List.mem_reverse.mp (List.mem_of_find?_eq_some h), ?_⟩
  have := List.find?_some h
  simpa using this

/-! ## C2 and C3: classification -/

/-- With no AI-resolved ids, the status is a pure function of the best score
and the two thresholds. -/
lemma classifyMatch_status_no_ai (rn d c : String) (req : Bool) (ar : String)
    (sio : Bool) (item : InventoryItem) (s : ℚ) :
    (classifyMatch rn d c req none none ar sio (some (item, s))).matchStatus =
      (if (62 : ℚ) / 100 ≤ s then .owned
       else if (42 : ℚ) / 100 ≤ s then .alternative else .missing) := by
  unfold classifyMatch
  simp only []
  by_cases h62 : (62 : ℚ) / 100 ≤ s
  · have h42 : (42 : ℚ) / 100 ≤ s := by linarith
    cases sio <;>
      simp [decide_eq_true h62, decide_eq_true h42, h62]
  · by_cases h42 : (42 : ℚ) / 100 ≤ s
    · cases sio <;>
        simp [decide_eq_false h62, decide_eq_true h42, h62, h42]
    · cases sio <;>
        simp [decide_eq_false h62, decide_eq_false h42, h62, h42]

/-- With no AI-resolved ids and no best match, the status is `missing`. -/
lemma classifyMatch_status_no_ai_none (rn d c : String) (req : Bool)
    (ar : String) (sio : Bool) :
    (classifyMatch rn d c req none none ar sio none).matchStatus = .missing := by
  unfold classifyMatch
  cases sio <;> simp

lemma aiOwnedOf_nil (raw : RawToolMatch) : aiOwnedOf [] raw = none := by
  unfold aiOwnedOf
  cases raw.ownedTool with
  | none => rfl
  | some ot =>
    cases h : ot.id with
    | none => simp [h]
    | some i =>
      by_cases hi : i = "" <;> simp [h, hi, inventoryById]

lemma aiAlternativeOf_nil (raw : RawToolMatch) : aiAlternativeOf [] raw = none := by
  unfold aiAlternativeOf
  cases raw.alternativeTool with
  | none => rfl
  | some alt =>
    cases h : alt.id with
    | none => simp [h]
    | some i =>
      by_cases hi : i = "" <;> simp [h, hi, inventoryById]

/-- **C2.** When neither AI proposal resolves to a real inventory id, the
classification is decided by the local best-match score `s`: `s ≥ 0.62` gives
`owned`, `0.42 ≤ s < 0.62` gives `alternative`, `s < 0.42` gives `missing`
(so a score of exactly 0.62 is `owned`, 0.619999 is `alternative`, 0.41 is
`missing`); an empty inventory always gives `missing`. -/
theorem threshold_classification_c2 :
    (∀ (raw : RawToolMatch) (inventory : List InventoryItem)
        (item : InventoryItem) (s : ℚ),
      aiOwnedOf inventory raw = none →
      aiAlternativeOf inventory raw = none →
      ¬ nameOf raw = "" →
      findBestInventoryMatch (nameOf raw) inventory = some (item, s) →
        (((62 : ℚ) / 100 ≤ s →
            (normalizeOne inventory raw).matchStatus = .owned) ∧
         ((42 : ℚ) / 100 ≤ s → s < 62 / 100 →
            (normalizeOne inventory raw).matchStatus = .alternative) ∧
         (s < (42 : ℚ) / 100 →
            (normalizeOne inventory raw).matchStatus = .missing))) ∧
    (∀ raw : RawToolMatch, (normalizeOne [] raw).matchStatus = .missing) := by
  constructor
  · intro raw inventory item s hOwned hAlt hname hbest
    have hstatus : (normalizeOne inventory raw).matchStatus =
        (if (62 : ℚ) / 100 ≤ s then .owned
         else if (42 : ℚ) / 100 ≤ s then .alternative else .missing) := by
      unfold normalizeOne
      simp only []
      rw [hOwned, hAlt, if_neg hname, hbest]
      exact classifyMatch_status_no_ai _ _ _ _ _ _ _ _
    refine ⟨?_, ?_, ?_⟩
    · intro h62
      rw [hstatus, if_pos h62]
    · intro h42 h62
      rw [hstatus, if_neg (by linarith), if_pos h42]
    · intro h42
      rw [hstatus, if_neg (by linarith), if_neg (by linarith)]
  · intro raw
    unfold normalizeOne
    simp only []
    rw [aiOwnedOf_nil, aiAlternativeOf_nil]
    have hbm : (if nameOf raw = "" then none
        else findBestInventoryMatch (nameOf raw) []) = none := by
      by_cases h : nameOf raw = "" <;> simp [h, findBestInventoryMatch]
    rw [hbm]
    exact classifyMatch_status_no_ai_none _ _ _ _ _ _

/-- Concrete item used by the matcher witnesses. -/
def hammerItem : InventoryItem :=
  { id := "i1", name := "hammer", description := "", category := none,
    tags := [], location := "shelf" }

theorem threshold_classification_c2_witness :
    (normalizeOne [hammerItem]
        { requiredToolName := some "hammer" }).matchStatus = .owned :=
  (threshold_classification_c2.1 { requiredToolName := some "hammer" }
      [hammerItem] hammerItem 1 rfl rfl (by decide)
      (by with_unfolding_all decide)).1 (by norm_num)

/-- An AI-proposed owned id that resolves wins unconditionally. -/
lemma classifyMatch_ai_owned (rn d c : String) (req : Bool)
    (aiAlternative : Option InventoryItem) (ar : String) (sio : Bool)
    (bm : Option (InventoryItem × ℚ)) (item : InventoryItem) :
    classifyMatch rn d c req (some item) aiAlternative ar sio bm =
      { requiredToolName := if rn = "" then "Unspecified tool" else rn,
        description := d, category := c, required := req,
        matchStatus := .owned,
        ownedTool := some ⟨item.id, item.name, item.location⟩,
        alternativeTool := none } := by
  unfold classifyMatch
  rfl

/-- **C3.** A raw requirement whose `ownedTool.id` is a non-empty id that
resolves in the inventory snapshot is classified `owned` and its `ownedTool`
is exactly that inventory item (id, name, location), regardless of the local
heuristic score. -/
theorem ai_owned_precedence_c3 (inventory : List InventoryItem)
    (raw : RawToolMatch) (ot : RawToolRef) (i : String) (item : InventoryItem)
    (hot : raw.ownedTool = some ot) (hid : ot.id = some i) (hne : ¬ i = "")
    (hfound : inventoryById inventory i = some item) :
    (normalizeOne inventory raw).matchStatus = .owned ∧
    (normalizeOne inventory raw).ownedTool =
      some ⟨item.id, item.name, item.location⟩ ∧
    item ∈ inventory ∧ item.id = i := by
  have hai : aiOwnedOf inventory raw = some item := by
    unfold aiOwnedOf
    simp [hot, hid, hne, hfound]
  have hnorm : normalizeOne inventory raw =
      { requiredToolName := if nameOf raw = "" then "Unspecified tool" else nameOf raw,
        description := if jsOrEmptyTrim raw.description = ""
          then "Useful for this task." else jsOrEmptyTrim raw.description,
        category := if jsOrEmptyTrim raw.category = ""
          then "General" else jsOrEmptyTrim raw.category,
        required := !(raw.required = some false),
        matchStatus := .owned,
        ownedTool := some ⟨item.id, item.name, item.location⟩,
        alternativeTool := none } := by
    unfold normalizeOne
    simp only []
    rw [hai]
    exact classifyMatch_ai_owned _ _ _ _ _ _ _ _ _
  have hmem := inventoryById_mem hfound
  rw [hnorm]
  exact ⟨rfl, rfl, hmem.1, hmem.2⟩

theorem ai_owned_precedence_c3_witness :
    (normalizeOne [hammerItem]
        { requiredToolName := some "zzz",
          ownedTool := some { id := some "i1" } }).matchStatus = .owned ∧
    (normalizeOne [hammerItem]
        { requiredToolName := some "zzz",
          ownedTool := some { id := some "i1" } }).ownedTool =
      some ⟨hammerItem.id, hammerItem.name, hammerItem.location⟩ ∧
    hammerItem ∈ [hammerItem] ∧ hammerItem.id = "i1" :=
  ai_owned_precedence_c3 [hammerItem]
    { requiredToolName := some "zzz", ownedTool := some { id := some "i1" } }
    { id := some "i1" } "i1" hammerItem rfl rfl (by decide) (by decide)

/-! ## C5: referential integrity of the produced ids -/

/-- Every id placed into an output slot comes from the AI-resolved items or
from the best match. -/
lemma classifyMatch_refs (rn d c : String) (req : Bool)
    (aiO aiA : Option InventoryItem) (ar : String) (sio : Bool)
    (bm : Option (InventoryItem × ℚ)) (P : InventoryItem → Prop)
    (hO : ∀ it, aiO = some it → P it) (hA : ∀ it, aiA = some it → P it)
    (hB : ∀ it s, bm = some (it, s) → P it) :
    (∀ t, (classifyMatch rn d c req aiO aiA ar sio bm).ownedTool = some t →
      ∃ item, P item ∧ item.id = t.id) ∧
    (∀ t, (classifyMatch rn d c req aiO aiA ar sio bm).alternativeTool = some t →
      ∃ item, P item ∧ item.id = t.id) := by
  unfold classifyMatch
  cases aiO with
  | some it =>
    refine ⟨fun t ht => ?_, fun t ht => ?_⟩ <;> simp at ht
    · exact ⟨it, hO it rfl, congrArg OwnedRef.id ht⟩
  | none =>
    cases bm with
    | none =>
      cases aiA with
      | some it =>
        cases sio <;>
          (refine ⟨fun t ht => ?_, fun t ht => ?_⟩ <;> simp at ht) <;>
          exact ⟨it, hA it rfl, congrArg AltRef.id ht⟩
      | none =>
        cases sio <;>
          (refine ⟨fun t ht => ?_, fun t ht => ?_⟩ <;> simp at ht)
    | some p =>
      obtain ⟨it, s⟩ := p
      have hBit : P it := hB it s rfl
      cases aiA with
      | some it' =>
        have hAit' : P it' := hA it' rfl
        by_cases h62 : (62 : ℚ) / 100 ≤ s <;> cases sio <;>
          (refine ⟨fun t ht => ?_, fun t ht => ?_⟩ <;> simp [h62] at ht) <;>
          first
            | exact ⟨it, hBit, congrArg OwnedRef.id ht⟩
            | exact ⟨it, hBit, congrArg AltRef.id ht⟩
            | exact ⟨it', hAit', congrArg OwnedRef.id ht⟩
            | exact ⟨it', hAit', congrArg AltRef.id ht⟩
      | none =>
        by_cases h62 : (62 : ℚ) / 100 ≤ s <;>
          by_cases h42 : (42 : ℚ) / 100 ≤ s <;> cases sio <;>
          (refine ⟨fun t ht => ?_, fun t ht => ?_⟩ <;> simp [h62, h42] at ht) <;>
          first
            | exact ⟨it, hBit, congrArg OwnedRef.id ht⟩
            | exact ⟨it, hBit, congrArg AltRef.id ht⟩

lemma aiOwnedOf_mem {inventory : List InventoryItem} {raw : RawToolMatch}
    {it : InventoryItem} (h : aiOwnedOf inventory raw = some it) :
    it ∈ inventory := by
  unfold aiOwnedOf at h
  cases hot : raw.ownedTool with
  | none => rw [hot] at h; exact absurd h (by simp)
  | some ot =>
    rw [hot] at h
    cases hid : ot.id with
    | none => simp [hid] at h
    | some i =>
      simp only [hid] at h
      by_cases hi : i = ""
      · rw [if_pos hi] at h; exact absurd h (by simp)
      · rw [if_neg hi] at h; exact (inventoryById_mem h).1

lemma aiAlternativeOf_mem {inventory : List InventoryItem} {raw : RawToolMatch}
    {it : InventoryItem} (h : aiAlternativeOf inventory raw = some it) :
    it ∈ inventory := by
  unfold aiAlternativeOf at h
  cases hot : raw.alternativeTool with
  | none => rw [hot] at h; exact absurd h (by simp)
  | some alt =>
    rw [hot] at h
    cases hid : alt.id with
    | none => simp [hid] at h
    | some i =>
      simp only [hid] at h
      by_cases hi : i = ""
      · rw [if_pos hi] at h; exact absurd h (by simp)
      · rw [if_neg hi] at h; exact (inventoryById_mem h).1

/-- The per-entry output only references inventory members. -/
lemma normalizeOne_refs (inventory : List InventoryItem) (raw : RawToolMatch) :
    (∀ t, (normalizeOne inventory raw).ownedTool = some t →
      ∃ item ∈ inventory, item.id = t.id) ∧
    (∀ t, (normalizeOne inventory raw).alternativeTool = some t →
      ∃ item ∈ inventory, item.id = t.id) := by
  unfold normalizeOne
  simp only []
  refine classifyMatch_refs _ _ _ _ _ _ _ _ _ (fun item => item ∈ inventory)
    (fun it h => aiOwnedOf_mem h) (fun it h => aiAlternativeOf_mem h) ?_
  intro it s h
  by_cases hn : nameOf raw = ""
  · rw [if_pos hn] at h; exact absurd h (by simp)
  · rw [if_neg hn] at h
    exact findBestInventoryMatch_mem h

lemma assocReplace_mem {l : List (String × ToolMatch)} {k : String}
    {m : ToolMatch} {p : String × ToolMatch} (h : p ∈ assocReplace l k m) :
    p ∈ l ∨ p = (k, m) := by
  induction l with
  | nil => simp [assocReplace] at h
  | cons q rest ih =>
    unfold assocReplace at h
    by_cases hq : q.1 = k
    · rw [if_pos hq] at h
      rcases List.mem_cons.mp h with h' | h'
      · right; exact h'
      · left; simp [h']
    · rw [if_neg hq] at h
      rcases List.mem_cons.mp h with h' | h'
      · left; simp [h']
      · rcases ih h' with h'' | h''
        · left; simp [h'']
        · right; exact h''

lemma dedupStep_mem {acc : List (String × ToolMatch)} {m : ToolMatch}
    {p : String × ToolMatch} (h : p ∈ dedupStep acc m) :
    p ∈ acc ∨ p = (nkey m, m) := by
  unfold dedupStep at h
  by_cases hk : nkey m = ""
  · rw [if_pos hk] at h; exact Or.inl h
  · rw [if_neg hk] at h
    cases hf : assocFind acc (nkey m) with
    | none =>
      simp only [hf] at h
      rcases List.mem_append.mp h with h' | h'
      · exact Or.inl h'
      · right; simpa using h'
    | some v =>
      simp only [hf] at h
      by_cases hc : v.matchStatus = .missing ∧ ¬ m.matchStatus = .missing
      · rw [if_pos hc] at h; exact assocReplace_mem h
      · rw [if_neg hc] at h; exact Or.inl h

lemma foldl_dedupStep_mem :
    ∀ {ms : List ToolMatch} {acc : List (String × ToolMatch)}
      {p : String × ToolMatch}, p ∈ ms.foldl dedupStep acc →
      p ∈ acc ∨ p.2 ∈ ms := by
  intro ms
  induction ms with
  | nil => intro acc p h; exact Or.inl h
  | cons m rest ih =>
    intro acc p h
    rw [List.foldl_cons] at h
    rcases ih h with h' | h'
    · rcases dedupStep_mem h' with h'' | h''
      · exact Or.inl h''
      · right; rw [h'']; simp
    · right; simp [h']

/-- Dedup only keeps elements of its input. -/
lemma dedupMatches_sub {ms : List ToolMatch} {x : ToolMatch}
    (h : x ∈ dedupMatches ms) : x ∈ ms := by
  unfold dedupMatches at h
  obtain ⟨p, hp, hpx⟩ := List.mem_map.mp h
  rcases foldl_dedupStep_mem hp with h' | h'
  · simp at h'
  · rw [← hpx]; exact h'

/-- **C5.** Every non-null `ownedTool`/`alternativeTool` in the output of
`normalizeToolMatches` carries the id of an item of the inventory snapshot of
the same call; the matcher never invents identifiers. -/
theorem matched_ids_exist_c5 (rawMatches : List RawToolMatch)
    (inventory : List InventoryItem) (m : ToolMatch)
    (hm : m ∈ normalizeToolMatches rawMatches inventory) :
    (∀ t, m.ownedTool = some t → ∃ item ∈ inventory, item.id = t.id) ∧
    (∀ t, m.alternativeTool = some t → ∃ item ∈ inventory, item.id = t.id) := by
  unfold normalizeToolMatches at hm
  by_cases hlen : rawMatches.length = 0
  · rw [if_pos hlen] at hm; exact absurd hm (by simp)
  · rw [if_neg hlen] at hm
    obtain ⟨raw, _, hraw⟩ := List.mem_map.mp (dedupMatches_sub hm)
    rw [← hraw]
    exact normalizeOne_refs inventory raw

theorem matched_ids_exist_c5_witness :
    ∃ item ∈ [hammerItem], item.id = "i1" :=
  (matched_ids_exist_c5 [{ requiredToolName := some "hammer" }] [hammerItem]
      (normalizeOne [hammerItem] { requiredToolName := some "hammer" })
      (by with_unfolding_all decide)).1
    ⟨"i1", "hammer", "shelf"⟩ (by with_unfolding_all decide)

/-! ## C4: deduplication -/

/-- The value kept under one key after one more entry arrives. -/
def stepVal (cur : Option ToolMatch) (m : ToolMatch) : Option ToolMatch :=
  match cur with
  | none => some m
  | some v =>
    if v.matchStatus = .missing ∧ ¬ m.matchStatus = .missing then some m
    else some v

/-- The value kept under one key after a run of entries with that key. -/
def chainVal (cur : Option ToolMatch) : List ToolMatch → Option ToolMatch
  | [] => cur
  | m :: rest => chainVal (stepVal cur m) rest

lemma assocFind_append_of_some {l : List (String × ToolMatch)} {k : String}
    {v : ToolMatch} (x : String × ToolMatch) (h : assocFind l k = some v) :
    assocFind (l ++ [x]) k = some v := by
  induction l with
  | nil => simp [assocFind] at h
  | cons p rest ih =>
    simp only [assocFind] at h
    simp only [List.cons_append, assocFind]
    by_cases hp : p.1 = k
    · rw [if_pos hp] at h
      rw [if_pos hp]
      exact h
    · rw [if_neg hp] at h
      rw [if_neg hp]
      exact ih h

lemma assocFind_append_of_none {l : List (String × ToolMatch)} {k k' : String}
    {m : ToolMatch} (h : assocFind l k = none) :
    assocFind (l ++ [(k', m)]) k = if k' = k then some m else none := by
  induction l with
  | nil => simp [assocFind]
  | cons p rest ih =>
    simp only [assocFind] at h
    simp only [List.cons_append, assocFind]
    by_cases hp : p.1 = k
    · rw [if_pos hp] at h; exact absurd h (by simp)
    · rw [if_neg hp] at h
      rw [if_neg hp]
      exact ih h

lemma assocFind_assocReplace_same {l : List (String × ToolMatch)} {k : String}
    {v : ToolMatch} (m : ToolMatch) (h : assocFind l k = some v) :
    assocFind (assocReplace l k m) k = some m := by
  induction l with
  | nil => simp [assocFind] at h
  | cons p rest ih =>
    simp only [assocFind] at h
    simp only [assocReplace]
    by_cases hp : p.1 = k
    · rw [if_pos hp]
      simp [assocFind]
    · rw [if_neg hp] at h
      rw [if_neg hp]
      simp only [assocFind]
      rw [if_neg hp]
      exact ih h

lemma assocFind_assocReplace_ne {l : List (String × ToolMatch)} {k k' : String}
    {m : ToolMatch} (hne : ¬ k' = k) :
    assocFind (assocReplace l k' m) k = assocFind l k := by
  induction l with
  | nil => rfl
  | cons p rest ih =>
    simp only [assocReplace]
    by_cases hp : p.1 = k'
    · rw [if_pos hp]
      simp only [assocFind]
      rw [if_neg hne, if_neg (by rw [hp]; exact hne)]
    · rw [if_neg hp]
      simp only [assocFind]
      by_cases hpk : p.1 = k
      · rw [if_pos hpk, if_pos hpk]
      · rw [if_neg hpk, if_neg hpk]
        exact ih

lemma assocReplace_keys {l : List (String × ToolMatch)} {k : String}
    {v : ToolMatch} (m : ToolMatch) (h : assocFind l k = some v) :
    (assocReplace l k m).map Prod.fst = l.map Prod.fst := by
  induction l with
  | nil => rfl
  | cons p rest ih =>
    simp only [assocFind] at h
    simp only [assocReplace]
    by_cases hp : p.1 = k
    · rw [if_pos hp]
      simp [hp]
    · rw [if_neg hp] at h
      rw [if_neg hp]
      simp [ih h]

lemma assocFind_eq_none_iff {l : List (String × ToolMatch)} {k : String} :
    assocFind l k = none ↔ k ∉ l.map Prod.fst := by
  induction l with
  | nil => simp [assocFind]
  | cons p rest ih =>
    unfold assocFind
    by_cases hp : p.1 = k
    · rw [if_pos hp]
      simp [hp]
    · rw [if_neg hp]
      simp only [List.map_cons, List.mem_cons]
      rw [ih]
      constructor
      · intro h hmem
        rcases hmem with h' | h'
        · exact hp h'.symm
        · exact h h'
      · intro h h'
        exact h (Or.inr h')

/-- One dedup step changes the lookup only at the entry's key. -/
lemma assocFind_dedupStep (acc : List (String × ToolMatch)) (m : ToolMatch)
    (k : String) (hk : ¬ k = "") :
    assocFind (dedupStep acc m) k =
      if nkey m = k then stepVal (assocFind acc k) m else assocFind acc k := by
  unfold dedupStep
  simp only []
  by_cases hk0 : nkey m = ""
  · rw [if_pos hk0, if_neg (by rw [hk0]; exact fun h => hk h.symm)]
  · rw [if_neg hk0]
    cases hf : assocFind acc (nkey m) with
    | none =>
      simp only []
      by_cases hmk : nkey m = k
      · rw [if_pos hmk]
        rw [hmk] at hf
        rw [assocFind_append_of_none hf, if_pos hmk, hf]
        rfl
      · rw [if_neg hmk]
        cases hfk : assocFind acc k with
        | none => rw [assocFind_append_of_none hfk, if_neg hmk]
        | some w => exact assocFind_append_of_some _ hfk
    | some v =>
      simp only []
      by_cases hc : v.matchStatus = .missing ∧ ¬ m.matchStatus = .missing
      · rw [if_pos hc]
        by_cases hmk : nkey m = k
        · rw [if_pos hmk]
          rw [hmk] at hf ⊢
          rw [assocFind_assocReplace_same m hf, hf]
          simp only [stepVal]
          rw [if_pos hc]
        · rw [if_neg hmk]
          exact assocFind_assocReplace_ne hmk
      · rw [if_neg hc]
        by_cases hmk : nkey m = k
        · rw [if_pos hmk]
          rw [hmk] at hf
          rw [hf]
          simp only [stepVal]
          rw [if_neg hc]
        · rw [if_neg hmk]

/-- The lookup after the whole dedup fold is the chain over the entries with
that key. -/
lemma assocFind_foldl_dedupStep {k : String} (hk : ¬ k = "") :
    ∀ (ms : List ToolMatch) (acc : List (String × ToolMatch)),
      assocFind (ms.foldl dedupStep acc) k =
        chainVal (assocFind acc k) (ms.filter (fun m => nkey m = k)) := by
  intro ms
  induction ms with
  | nil => intro acc; rfl
  | cons m rest ih =>
    intro acc
    rw [List.foldl_cons, ih]
    by_cases hmk : nkey m = k
    · rw [List.filter_cons_of_pos (by simp [hmk])]
      rw [show ∀ cur l, chainVal cur (m :: l) = chainVal (stepVal cur m) l from
        fun cur l => rfl]
      rw [assocFind_dedupStep acc m k hk, if_pos hmk]
    · rw [List.filter_cons_of_neg (by simp [hmk])]
      rw [assocFind_dedupStep acc m k hk, if_neg hmk]

/-- Well-formedness of the dedup accumulator: keys are pairwise distinct and
non-empty, and every stored value's own key matches its map key. -/
def accWf (acc : List (String × ToolMatch)) : Prop :=
  (acc.map Prod.fst).Nodup ∧ ∀ p ∈ acc, ¬ p.1 = "" ∧ nkey p.2 = p.1

lemma accWf_dedupStep {acc : List (String × ToolMatch)} (m : ToolMatch)
    (h : accWf acc) : accWf (dedupStep acc m) := by
  obtain ⟨hnd, hmem⟩ := h
  unfold dedupStep
  simp only []
  by_cases hk0 : nkey m = ""
  · rw [if_pos hk0]; exact ⟨hnd, hmem⟩
  · rw [if_neg hk0]
    cases hf : assocFind acc (nkey m) with
    | none =>
      simp only []
      constructor
      · rw [List.map_append]
        rw [List.nodup_append]
        refine ⟨hnd, by simp, ?_⟩
        intro a ha hb
        simp only [List.map_cons, List.map_nil, List.mem_singleton] at hb
        rw [hb] at ha
        exact (assocFind_eq_none_iff.mp hf) ha
      · intro p hp
        rcases List.mem_append.mp hp with h' | h'
        · exact hmem p h'
        · simp only [List.mem_singleton] at h'
          rw [h']
          exact ⟨hk0, rfl⟩
    | some v =>
      simp only []
      by_cases hc : v.matchStatus = .missing ∧ ¬ m.matchStatus = .missing
      · rw [if_pos hc]
        constructor
        · rw [assocReplace_keys m hf]
          exact hnd
        · intro p hp
          rcases assocReplace_mem hp with h' | h'
          · exact hmem p h'
          · rw [h']
            exact ⟨hk0, rfl⟩
      · rw [if_neg hc]
        exact ⟨hnd, hmem⟩

lemma accWf_foldl :
    ∀ (ms : List ToolMatch) (acc : List (String × ToolMatch)),
      accWf acc → accWf (ms.foldl dedupStep acc) := by
  intro ms
  induction ms with
  | nil => intro acc h; exact h
  | cons m rest ih =>
    intro acc h
    rw [List.foldl_cons]
    exact ih _ (accWf_dedupStep m h)

/-- On a well-formed accumulator, filtering the stored values by key reads off
the lookup. -/
lemma values_filter_eq_toList {k : String} :
    ∀ {acc : List (String × ToolMatch)}, accWf acc →
      (acc.map Prod.snd).filter (fun m => nkey m = k) =
        (assocFind acc k).toList := by
  intro acc
  induction acc with
  | nil => intro _; rfl
  | cons p rest ih =>
    intro h
    obtain ⟨hnd, hmem⟩ := h
    have hrest : accWf rest := by
      refine ⟨(List.nodup_cons.mp hnd).2, fun q hq => hmem q (by simp [hq])⟩
    have hpk : nkey p.2 = p.1 := (hmem p (by simp)).2
    simp only [List.map_cons, assocFind]
    by_cases hp1 : p.1 = k
    · rw [if_pos hp1]
      rw [List.filter_cons_of_pos (by simp [hpk, hp1])]
      have hrestnil : (rest.map Prod.snd).filter (fun m => nkey m = k) = [] := by
        rw [List.filter_eq_nil_iff]
        intro x hx
        obtain ⟨q, hq, hqx⟩ := List.mem_map.mp hx
        have hq1 : nkey q.2 = q.1 := (hmem q (by simp [hq])).2
        have hne : q.1 ≠ p.1 := by
          intro he
          exact (List.nodup_cons.mp hnd).1 (he ▸ List.mem_map_of_mem Prod.fst hq)
        rw [← hqx]
        simp only [decide_eq_true_eq]
        rw [hq1]
        rw [hp1] at hne
        exact hne
      rw [hrestnil]
      rfl
    · rw [if_neg hp1]
      rw [List.filter_cons_of_neg (by simp [hpk, hp1])]
      exact ih hrest

/-- With an empty key nothing is ever stored. -/
lemma values_filter_empty_key :
    ∀ {acc : List (String × ToolMatch)}, accWf acc →
      (acc.map Prod.snd).filter (fun m => nkey m = "") = [] := by
  intro acc h
  rw [List.filter_eq_nil_iff]
  intro x hx
  obtain ⟨q, hq, hqx⟩ := List.mem_map.mp hx
  have := h.2 q hq
  rw [← hqx]
  simp only [decide_eq_true_eq]
  rw [this.2]
  exact this.1

/-- **C4.** Deduplication keeps at most one entry per normalized requirement
name, and a `missing` match never displaces a non-`missing` one: when exactly
two produced matches share a key, one `missing` and one `owned` (in either
order), the output keeps exactly the `owned` one. -/
theorem dedup_c4 (rawMatches : List RawToolMatch)
    (inventory : List InventoryItem) (k : String) :
    (((normalizeToolMatches rawMatches inventory).filter
        (fun m => nkey m = k)).length ≤ 1) ∧
    (∀ m1 m2 : ToolMatch, ¬ k = "" →
      (rawMatches.map (normalizeOne inventory)).filter (fun m => nkey m = k)
          = [m1, m2] →
      ((m1.matchStatus = .missing ∧ m2.matchStatus = .owned →
          (normalizeToolMatches rawMatches inventory).filter
            (fun m => nkey m = k) = [m2]) ∧
       (m1.matchStatus = .owned ∧ m2.matchStatus = .missing →
          (normalizeToolMatches rawMatches inventory).filter
            (fun m => nkey m = k) = [m1]))) := by
  by_cases hlen : rawMatches.length = 0
  · constructor
    · unfold normalizeToolMatches
      rw [if_pos hlen]
      simp
    · intro m1 m2 hk hfe
      rw [List.length_eq_zero.mp hlen] at hfe
      simp at hfe
  · have hwf : accWf ((rawMatches.map (normalizeOne inventory)).foldl
        dedupStep []) :=
      accWf_foldl _ [] ⟨by simp, by simp⟩
    constructor
    · unfold normalizeToolMatches
      rw [if_neg hlen]
      unfold dedupMatches
      by_cases hk : k = ""
      · rw [hk, values_filter_empty_key hwf]
        simp
      · rw [values_filter_eq_toList hwf]
        cases assocFind ((rawMatches.map (normalizeOne inventory)).foldl
            dedupStep []) k <;> simp [Option.toList]
    · intro m1 m2 hk hfe
      unfold normalizeToolMatches
      rw [if_neg hlen]
      unfold dedupMatches
      rw [values_filter_eq_toList hwf,
        assocFind_foldl_dedupStep hk (rawMatches.map (normalizeOne inventory)) [],
        show assocFind [] k = none from rfl, hfe]
      constructor
      · rintro ⟨h1, h2⟩
        rw [show chainVal none [m1, m2] = stepVal (some m1) m2 from rfl]
        simp only [stepVal]
        rw [if_pos ⟨h1, by rw [h2]; decide⟩]
        rfl
      · rintro ⟨h1, h2⟩
        rw [show chainVal none [m1, m2] = stepVal (some m1) m2 from rfl]
        simp only [stepVal]
        rw [if_neg (fun hcon => by rw [h1] at hcon; exact absurd hcon.1 (by decide))]
        rfl

/-- Inventory item for the dedup witness. -/
def tapeZItem : InventoryItem :=
  { id := "z1", name := "zzz", description := "", category := none,
    tags := [], location := "x" }

/-- A requirement that classifies `missing` (nothing matches "Tape Measure"). -/
def c4RawMissing : RawToolMatch := { requiredToolName := some "Tape Measure" }

/-- A requirement with the same normalized name that classifies `owned`
through an AI-resolved id. -/
def c4RawOwned : RawToolMatch :=
  { requiredToolName := some "tape  measure",
    ownedTool := some { id := some "z1" } }

theorem dedup_c4_witness :
    (normalizeToolMatches [c4RawMissing, c4RawOwned] [tapeZItem]).filter
        (fun m => nkey m = "tape measure")
      = [normalizeOne [tapeZItem] c4RawOwned] :=
  ((dedup_c4 [c4RawMissing, c4RawOwned] [tapeZItem] "tape measure").2
      (normalizeOne [tapeZItem] c4RawMissing)
      (normalizeOne [tapeZItem] c4RawOwned) (by decide)
      (by with_unfolding_all decide)).1
    ⟨by with_unfolding_all decide, by with_unfolding_all decide⟩

/-! ## C9: runtime behaviour of `normalizeToolMatches` on untyped input

The source types its input as `ParsedAiResult['toolMatches']`, but the value
comes from `JSON.parse` and can be arbitrary JSON.  This embedding follows the
JavaScript runtime semantics of lines 125–202 of workAssistant.ts on a `JVal`
input: property access on `null`/`undefined` throws `TypeError`, as does
calling `.trim()` on a truthy non-string. -/

/-- The only runtime error the function can raise. -/
inductive JsErr where
  | typeError
deriving DecidableEq

/-- `v[key]`, throwing on nullish `v`. -/
def jsGetField (v : JVal) (key : String) : Except JsErr JVal :=
  if jsNullish v then .error .typeError else .ok (objGet v key)

/-- `v?.[key]`: optional chaining never throws. -/
def jsOptChainField (v : JVal) (key : String) : JVal :=
  if jsNullish v then .undefinedVal else objGet v key

/-- `(v || '').trim()`: falsy values become `""`; a truthy non-string has no
`trim` method and throws. -/
def jsTrimOrEmpty (v : JVal) : Except JsErr String :=
  if jsTruthy v then
    match v with
    | .str s => .ok (jsTrim s)
    | _ => .error .typeError
  else .ok ""

/-- String rendering of a value that lands in a string-typed slot.  Only
reached for a truthy non-string `reason`; JavaScript would keep the raw value
in the output object, the model keeps a rendering. -/
def jsDisplay : JVal → String
  | .str s => s
  | .num q => jsNumToString q
  | .bool b => if b then "true" else "false"
  | .null => "null"
  | .undefinedVal => "undefined"
  | .arr _ => ""
  | .obj _ => "[object Object]"

/-- Lines 130–189 of workAssistant.ts on one untyped array entry. -/
def normalizeOneJS (inventory : List InventoryItem) (raw : JVal) :
    Except JsErr ToolMatch := do
  let rtnV ← jsGetField raw "requiredToolName"
  let requiredToolName ← jsTrimOrEmpty rtnV
  let descV ← jsGetField raw "description"
  let description0 ← jsTrimOrEmpty descV
  let description := if description0 = "" then "Useful for this task." else description0
  let catV ← jsGetField raw "category"
  let category0 ← jsTrimOrEmpty catV
  let category := if category0 = "" then "General" else category0
  let requiredV ← jsGetField raw "required"
  let required :=
    match requiredV with
    | .bool false => false
    | _ => true
  let ownedV ← jsGetField raw "ownedTool"
  let ownedIdV := jsOptChainField ownedV "id"
  let aiOwned :=
    if jsTruthy ownedIdV then
      match ownedIdV with
      | .str s => inventoryById inventory s
      | _ => none
    else none
  let altV ← jsGetField raw "alternativeTool"
  let altIdV := jsOptChainField altV "id"
  let aiAlternative :=
    if jsTruthy altIdV then
      match altIdV with
      | .str s => inventoryById inventory s
      | _ => none
    else none
  let reasonV := jsOptChainField altV "reason"
  let altReason :=
    if jsTruthy reasonV then jsDisplay reasonV
    else "Can substitute for this task."
  let statusV ← jsGetField raw "matchStatus"
  let statusIsOwned :=
    match statusV with
    | .str s => decide (s = "owned")
    | _ => false
  let bestMatch :=
    if requiredToolName = "" then none
    else findBestInventoryMatch requiredToolName inventory
  return classifyMatch requiredToolName description category required aiOwned
    aiAlternative altReason statusIsOwned bestMatch

/-- `rawMatches?.length`: optional chaining on nullish, the actual lengths of
arrays and strings, a plain field read otherwise. -/
def jsLengthOf (rawMatches : JVal) : JVal :=
  match rawMatches with
  | .null => .undefinedVal
  | .undefinedVal => .undefinedVal
  | .arr xs => .num xs.length
  | .str s => .num s.length
  | other => objGet other "length"

/-- `rawMatches.map(raw => ...)`: entries are mapped in order and the first
thrown error aborts the whole map. -/
def mapEntriesJS (inventory : List InventoryItem) :
    List JVal → Except JsErr (List ToolMatch)
  | [] => .ok []
  | v :: rest => do
    let m ← normalizeOneJS inventory v
    let ms ← mapEntriesJS inventory rest
    return m :: ms

/-- Lines 125–202 of workAssistant.ts on an untyped `rawMatches` value:
`!rawMatches?.length` returns `[]`, then `.map` requires an array, then the
dedup stage runs on the produced matches. -/
def normalizeToolMatchesJS (rawMatches : JVal)
    (inventory : List InventoryItem) : Except JsErr (List ToolMatch) :=
  if jsTruthy (jsLengthOf rawMatches) = false then .ok []
  else
    match rawMatches with
    | .arr xs => do
      let normalized ← mapEntriesJS inventory xs
      return dedupMatches normalized
    | _ => .error .typeError

/-- The fields reached by `(x || '').trim()` must be strings or falsy. -/
def fieldTrimSafe (v : JVal) : Bool :=
  !jsTruthy v ||
    (match v with
     | .str _ => true
     | _ => false)

/-- Entries on which lines 130–189 cannot throw: non-nullish, with
`requiredToolName`, `description` and `category` each a string or falsy. -/
def entrySafe (v : JVal) : Bool :=
  !jsNullish v &&
    fieldTrimSafe (objGet v "requiredToolName") &&
    fieldTrimSafe (objGet v "description") &&
    fieldTrimSafe (objGet v "category")

lemma exceptOkBind {α β : Type} (a : α) (f : α → Except JsErr β) :
    (Except.ok a >>= f) = f a := rfl

lemma exceptErrBind {α β : Type} (e : JsErr) (f : α → Except JsErr β) :
    ((Except.error e : Except JsErr α) >>= f) = .error e := rfl

lemma exceptPureEq {α : Type} (a : α) :
    (pure a : Except JsErr α) = .ok a := rfl

lemma jsTrimOrEmpty_ok {v : JVal} (h : fieldTrimSafe v = true) :
    ∃ s, jsTrimOrEmpty v = .ok s := by
  unfold fieldTrimSafe at h
  unfold jsTrimOrEmpty
  cases htv : jsTruthy v
  · simp [htv]
  · rw [htv] at h
    simp only [Bool.not_true, Bool.false_or] at h
    cases v <;> simp_all

/-- A safe entry is mapped without an error. -/
lemma normalizeOneJS_ok (inventory : List InventoryItem) {v : JVal}
    (h : entrySafe v = true) : ∃ m, normalizeOneJS inventory v = .ok m := by
  have hn : jsNullish v = false := by
    cases hb : jsNullish v
    · rfl
    · exfalso
      unfold entrySafe at h
      rw [hb] at h
      simp at h
  have hget : ∀ key, jsGetField v key = .ok (objGet v key) := by
    intro key
    unfold jsGetField
    rw [if_neg (by rw [hn]; exact Bool.false_ne_true)]
  unfold entrySafe at h
  simp only [Bool.and_eq_true] at h
  obtain ⟨⟨⟨_, h1⟩, h2⟩, h3⟩ := h
  obtain ⟨s1, hs1⟩ := jsTrimOrEmpty_ok h1
  obtain ⟨s2, hs2⟩ := jsTrimOrEmpty_ok h2
  obtain ⟨s3, hs3⟩ := jsTrimOrEmpty_ok h3
  unfold normalizeOneJS
  simp only [hget, hs1, hs2, hs3, exceptOkBind, exceptPureEq]
  exact ⟨_, rfl⟩

/-- A nullish entry makes the per-entry mapping throw at its first property
access. -/
lemma normalizeOneJS_nullish (inventory : List InventoryItem) {v : JVal}
    (h : jsNullish v = true) :
    normalizeOneJS inventory v = .error .typeError := by
  unfold normalizeOneJS
  rw [show jsGetField v "requiredToolName" = .error .typeError from by
    unfold jsGetField; rw [if_pos h]]
  rfl

lemma mapEntriesJS_ok (inventory : List InventoryItem) :
    ∀ {entries : List JVal}, (∀ v ∈ entries, entrySafe v = true) →
      ∃ ms, mapEntriesJS inventory entries = .ok ms := by
  intro entries
  induction entries with
  | nil => intro _; exact ⟨[], rfl⟩
  | cons v rest ih =>
    intro h
    obtain ⟨m, hm⟩ := normalizeOneJS_ok inventory (h v (by simp))
    obtain ⟨ms, hms⟩ := ih (fun w hw => h w (by simp [hw]))
    refine ⟨m :: ms, ?_⟩
    simp only [mapEntriesJS, hm, hms, exceptOkBind, exceptPureEq]

lemma mapEntriesJS_err (inventory : List InventoryItem) {v : JVal}
    (hv : jsNullish v = true) :
    ∀ {pre : List JVal} (post : List JVal),
      (∀ w ∈ pre, entrySafe w = true) →
      mapEntriesJS inventory (pre ++ v :: post) = .error .typeError := by
  intro pre
  induction pre with
  | nil =>
    intro post _
    simp only [List.nil_append, mapEntriesJS,
      normalizeOneJS_nullish inventory hv, exceptErrBind]
  | cons w rest ih =>
    intro post h
    obtain ⟨m, hm⟩ := normalizeOneJS_ok inventory (h w (by simp))
    simp only [List.cons_append, mapEntriesJS, hm, exceptOkBind,
      List.append_eq, ih post (fun x hx => h x (by simp [hx])), exceptErrBind]

/-- **C9, counterexample.** `normalizeToolMatches` does raise on malformed
input: a `null` entry throws a `TypeError` at the first property access, and a
truthy non-string `requiredToolName` (here the number 5) throws when `.trim()`
is called on it — refuting the claim that such inputs are coerced to safe
defaults instead of raising. -/
theorem defensive_coercion_c9_counterexample :
    normalizeToolMatchesJS (.arr [.null]) [] = .error .typeError ∧
    normalizeToolMatchesJS (.arr [.obj [("requiredToolName", .num 5)]]) []
      = .error .typeError := by
  constructor <;> with_unfolding_all rfl

/-- **C9, amended.**  `normalizeToolMatches` returns a result without raising
whenever every entry of the array is non-nullish with `requiredToolName`,
`description` and `category` each a string or falsy (missing/falsy fields are
coerced to safe defaults); but an entry that is `null`/`undefined` — after any
prefix of well-behaved entries — raises a `TypeError`. -/
theorem defensive_coercion_c9_amended :
    (∀ (entries : List JVal) (inventory : List InventoryItem),
      (∀ v ∈ entries, entrySafe v = true) →
      ∃ ms, normalizeToolMatchesJS (.arr entries) inventory = .ok ms) ∧
    (∀ (pre post : List JVal) (v : JVal) (inventory : List InventoryItem),
      (∀ w ∈ pre, entrySafe w = true) → jsNullish v = true →
      normalizeToolMatchesJS (.arr (pre ++ v :: post)) inventory
        = .error .typeError) := by
  constructor
  · intro entries inventory h
    cases entries with
    | nil => exact ⟨[], by with_unfolding_all rfl⟩
    | cons hd tl =>
      have hq : (((hd :: tl).length : ℚ)) ≠ 0 := Nat.cast_ne_zero.mpr (by simp)
      have hlen : jsTruthy (jsLengthOf (.arr (hd :: tl))) = true := by
        simp only [jsLengthOf, jsTruthy]
        exact decide_eq_true hq
      obtain ⟨ms, hms⟩ := mapEntriesJS_ok inventory h
      refine ⟨dedupMatches ms, ?_⟩
      simp only [normalizeToolMatchesJS, hlen, Bool.true_eq_false, if_false,
        hms, exceptOkBind, exceptPureEq]
  · intro pre post v inventory h hv
    have hq : (((pre ++ v :: post).length : ℚ)) ≠ 0 :=
      Nat.cast_ne_zero.mpr (by simp)
    have hlen : jsTruthy (jsLengthOf (.arr (pre ++ v :: post))) = true := by
      simp only [jsLengthOf, jsTruthy]
      exact decide_eq_true hq
    have herr := mapEntriesJS_err inventory hv post h
    simp only [normalizeToolMatchesJS, hlen, Bool.true_eq_false, if_false,
      herr, exceptErrBind]

theorem defensive_coercion_c9_witness :
    ∃ ms, normalizeToolMatchesJS
        (.arr [.obj [("requiredToolName", .str "Hammer")]]) [] = .ok ms :=
  defensive_coercion_c9_amended.1
    [.obj [("requiredToolName", .str "Hammer")]] [] (by decide)
